import Mathlib

/-!
Verification of the acquisition-to-storage pipeline of the Airsoft-Display
firmware: a shallow embedding, over `Nat` and `List Nat`, of

* the CRC-32 routine and the fixed-slot flash capture log
  (`src/lib/flash_storage.cpp` / `.h`),
* the bounded capture session state machine (`src/lib/data_collector.cpp` / `.h`),
* the double-buffered DMA sampler's flag protocol (`src/lib/dma_adc_sampler.cpp`),
* the median stage of the voltage filter (`src/lib/voltage_filter.cpp`).

Machine integers (`uint32_t`, `uint16_t`, bytes) are embedded as `Nat`;
truncation to the machine width is written explicitly (`% 2 ^ 32`, `% 256`)
exactly where the C code's serialization or arithmetic truncates.  Pointers
that may be `nullptr` become `Option`; a pointer-plus-count pair `(p, count)`
becomes the list of the `count` values read through `p` (materialized in the
embedding as `l.take count`).  Flash is a list of per-slot byte lists; a byte
that was never programmed reads back as `0xFF` (the erased state), which the
embedding realizes by reading with default `255` past the end of a slot's
byte list.
-/

set_option maxRecDepth 8000

-- ==================================================
-- CRC32 (flash_storage.cpp, `static uint32_t crc32`)
-- ==================================================

/-- One iteration of the inner bit loop of `crc32`:
`crc = (crc >> 1) ^ (0xEDB88320 & -(crc & 1))`.  In uint32 arithmetic
`-(crc & 1)` is `0xFFFFFFFF` when the low bit is set and `0` otherwise, so
the masked polynomial is `0xEDB88320` or `0`. -/
def crcStep (c : Nat) : Nat :=
  (c / 2) ^^^ (if c % 2 = 1 then 0xEDB88320 else 0)

/-- One iteration of the outer byte loop of `crc32`: XOR the byte into the
running CRC, then run the bit loop eight times. -/
def crcByteStep (c b : Nat) : Nat :=
  crcStep^[8] (c ^^^ b)

/-- The byte loop of `crc32` over a whole buffer, starting from state `c`. -/
def crcFold (c : Nat) (l : List Nat) : Nat :=
  l.foldl crcByteStep c

/-- `crc32(data, length)`: initial state `0xFFFFFFFF`, byte loop, final
complement (`~crc`, i.e. XOR with `0xFFFFFFFF` in uint32). -/
def crc32 (l : List Nat) : Nat :=
  crcFold 0xFFFFFFFF l ^^^ 0xFFFFFFFF

-- ==================================================
-- Byte-level serialization helpers
-- ==================================================

/-- Little-endian byte image of a `uint32_t` value. -/
def u32le (v : Nat) : List Nat :=
  [v % 256, v / 256 % 256, v / 65536 % 256, v / 16777216 % 256]

/-- Little-endian byte image of an array of `uint16_t` samples, as laid out
in memory and copied byte-for-byte by `memcpy` into the write buffer. -/
def bytesLE : List Nat → List Nat
  | [] => []
  | v :: t => v % 256 :: v / 256 % 256 :: bytesLE t

/-- Read one byte of a slot.  Bytes beyond what was ever programmed read as
`0xFF`, the erased flash state. -/
def readByte (s : List Nat) (i : Nat) : Nat :=
  s.getD i 255

/-- Read a little-endian `uint32_t` at byte offset `off` of a slot. -/
def readU32 (s : List Nat) (off : Nat) : Nat :=
  readByte s off + 256 * readByte s (off + 1) + 65536 * readByte s (off + 2) +
    16777216 * readByte s (off + 3)

/-- Read `n` consecutive bytes starting at byte offset `off` of a slot. -/
def readBytesList (s : List Nat) (off n : Nat) : List Nat :=
  (List.range n).map fun i => readByte s (off + i)

/-- Read `n` consecutive little-endian `uint16_t` samples starting at byte
offset `off` of a slot (the view a `const uint16_t*` into flash denotes). -/
def readSamples (s : List Nat) (off n : Nat) : List Nat :=
  (List.range n).map fun i => readByte s (off + 2 * i) + 256 * readByte s (off + 2 * i + 1)

-- ==================================================
-- FlashStorage data model (flash_storage.h)
-- ==================================================

/-- FlashStorage::MAX_CAPTURES. -/
def MAX_CAPTURES : Nat := 10

/-- FlashStorage::CAPTURE_SLOT_SIZE (128 KiB). -/
def CAPTURE_SLOT_SIZE : Nat := 128 * 1024

/-- Hardware FLASH_SECTOR_SIZE of the RP2040 (4096). -/
def FLASH_SECTOR_SIZE : Nat := 4096

/-- Hardware FLASH_PAGE_SIZE of the RP2040 (256). -/
def FLASH_PAGE_SIZE : Nat := 256

/-- The record magic `0x41444353` ("ADCS"). -/
def MAGIC : Nat := 0x41444353

/-- ADCConfig::SAMPLE_RATE_HZ. -/
def SAMPLE_RATE_HZ : Nat := 5000

/-- The data partition: one byte list per 128 KiB slot, listing the bytes
programmed since the slot was last erased (erased bytes read as `0xFF` via
`readByte`).  The physical partition has exactly `MAX_CAPTURES` slots;
theorems carry `f.slots.length = MAX_CAPTURES` where it matters. -/
structure Flash where
  slots : List (List Nat)
deriving DecidableEq

/-- The byte contents of slot `i` (`XIP_BASE + DATA_FLASH_OFFSET + i * CAPTURE_SLOT_SIZE`). -/
def getSlot (f : Flash) (i : Nat) : List Nat :=
  f.slots.getD i []

/-- The capture header, `FlashStorage::CaptureHeader` (eight `uint32_t`
fields, 32 bytes, no padding). -/
structure CaptureHeader where
  magic : Nat
  version : Nat
  sample_rate : Nat
  sample_count : Nat
  timestamp : Nat
  checksum : Nat
  has_filtered : Nat
  checksum_filt : Nat
deriving DecidableEq

/-- Serialize a header: eight little-endian `uint32_t` in declaration order
(the byte image `memcpy` places at the start of the write buffer). -/
def headerBytes (h : CaptureHeader) : List Nat :=
  u32le h.magic ++ u32le h.version ++ u32le h.sample_rate ++ u32le h.sample_count ++
    u32le h.timestamp ++ u32le h.checksum ++ u32le h.has_filtered ++ u32le h.checksum_filt

/-- Parse a header from the first 32 bytes of a slot (the `memcpy` into a
`CaptureHeader` in `read_capture` / `read_capture_dual`). -/
def parseHeader (s : List Nat) : CaptureHeader :=
  { magic := readU32 s 0
    version := readU32 s 4
    sample_rate := readU32 s 8
    sample_count := readU32 s 12
    timestamp := readU32 s 16
    checksum := readU32 s 20
    has_filtered := readU32 s 24
    checksum_filt := readU32 s 28 }

/-- `FlashStorage::get_capture_count`: walk slots `0 .. MAX_CAPTURES-1`,
counting while the stored magic word matches, stopping at the first
mismatch. -/
def get_capture_count (f : Flash) : Nat :=
  ((f.slots.take MAX_CAPTURES).takeWhile fun s => readU32 s 0 == MAGIC).length

/-- Effect of `flash_range_erase(slot_offset, erase_size)` followed by the
page-programming loop on one slot's bytes: the first
`erase_size = sector-rounded(total_size)` bytes become the write buffer
followed by `0xFF` padding (the loop pads the final partial page with
`0xFF`, and pages of the erased region beyond the record stay erased);
bytes of the slot past `erase_size` are untouched. -/
def overwriteSlot (old wb : List Nat) : List Nat :=
  let erase_size := (wb.length + FLASH_SECTOR_SIZE - 1) / FLASH_SECTOR_SIZE * FLASH_SECTOR_SIZE
  wb ++ List.replicate (erase_size - wb.length) 255 ++ old.drop erase_size

/-- The header `write_capture_dual` builds for a record: version and
has-filtered flag from the presence of filtered data, the build-time sample
rate, the caller's count and timestamp, and a CRC-32 per payload present.
`raw.take count` / `fl.take count` are the `count` samples the C code reads
through the `raw_samples` / `filtered_samples` pointers. -/
def recordHeader (raw : List Nat) (filt : Option (List Nat)) (count timestamp : Nat) :
    CaptureHeader :=
  { magic := MAGIC
    version := if filt.isSome then 2 else 1
    sample_rate := SAMPLE_RATE_HZ
    sample_count := count
    timestamp := timestamp
    checksum := crc32 (bytesLE (raw.take count))
    has_filtered := if filt.isSome then 1 else 0
    checksum_filt := match filt with
      | some fl => crc32 (bytesLE (fl.take count))
      | none => 0 }

/-- The optional filtered payload bytes of a record. -/
def filtPayload (filt : Option (List Nat)) (count : Nat) : List Nat :=
  match filt with
  | some fl => bytesLE (fl.take count)
  | none => []

/-- The serialized record `header + raw payload [+ filtered payload]` that
`write_capture_dual` assembles in its RAM write buffer before programming. -/
def writeRecordBytes (raw : List Nat) (filt : Option (List Nat)) (count timestamp : Nat) :
    List Nat :=
  headerBytes (recordHeader raw filt count timestamp) ++ bytesLE (raw.take count) ++
    filtPayload filt count

/-- `FlashStorage::read_capture`: bounds-check the slot, parse the header,
fail on a magic mismatch, otherwise return the header together with the
bytes of the sample region the caller's `const uint16_t* samples` view
denotes (`sample_count * sizeof(uint16_t)` bytes from offset 32, which is
exactly what `verify_capture` reads through that pointer). -/
def read_capture (f : Flash) (slot : Int) : Option (CaptureHeader × List Nat) :=
  if slot < 0 ∨ (MAX_CAPTURES : Int) ≤ slot then none
  else
    let s := getSlot f slot.toNat
    let header := parseHeader s
    if header.magic ≠ MAGIC then none
    else some (header, readBytesList s 32 (2 * header.sample_count))

/-- `FlashStorage::verify_capture`: read the capture, re-check the magic,
recompute the CRC-32 of the raw sample bytes and compare it against the
stored `checksum` field. -/
def verify_capture (f : Flash) (slot : Int) : Bool :=
  match read_capture f slot with
  | none => false
  | some (header, data) =>
    if header.magic ≠ MAGIC then false
    else decide (crc32 data = header.checksum)

/-- Body of `FlashStorage::write_capture_dual` after the null-pointer
check, with the locals `total_size`, `slot` and `f2` of the C code inlined.
Sizes are computed without uint32 overflow (unreachable for any count that
passes the 128 KiB capacity check).  The `new uint8_t[total_size]`
allocation is non-nothrow, so its null check is dead code and allocation is
modeled as succeeding.  On a post-write verification failure the slot bytes
are already committed (no rollback) and `-1` is returned. -/
def write_capture_dual_checked (f : Flash) (raw : List Nat)
    (filtered_samples : Option (List Nat)) (count timestamp : Nat) : Flash × Int :=
  if count = 0 then (f, -1)
  else if CAPTURE_SLOT_SIZE <
      32 + (count * 2 + if filtered_samples.isSome then count * 2 else 0) then (f, -1)
  else if MAX_CAPTURES ≤ get_capture_count f then (f, -1)
  else if verify_capture
      (Flash.mk (f.slots.set (get_capture_count f)
        (overwriteSlot (getSlot f (get_capture_count f))
          (writeRecordBytes raw filtered_samples count timestamp))))
      (Int.ofNat (get_capture_count f)) then
    (Flash.mk (f.slots.set (get_capture_count f)
      (overwriteSlot (getSlot f (get_capture_count f))
        (writeRecordBytes raw filtered_samples count timestamp))),
      Int.ofNat (get_capture_count f))
  else
    (Flash.mk (f.slots.set (get_capture_count f)
      (overwriteSlot (getSlot f (get_capture_count f))
        (writeRecordBytes raw filtered_samples count timestamp))), -1)

/-- `FlashStorage::write_capture_dual`: reject a null `raw_samples`
pointer, otherwise run the checked write.  Returns the updated flash and
the slot number, or `-1` on error. -/
def write_capture_dual (f : Flash) (raw_samples filtered_samples : Option (List Nat))
    (count timestamp : Nat) : Flash × Int :=
  match raw_samples with
  | none => (f, -1)
  | some raw => write_capture_dual_checked f raw filtered_samples count timestamp

/-- `FlashStorage::write_capture` (legacy): delegates to
`write_capture_dual` with no filtered data. -/
def write_capture (f : Flash) (samples : Option (List Nat)) (count timestamp : Nat) :
    Flash × Int :=
  write_capture_dual f samples none count timestamp

/-- `FlashStorage::read_capture_dual`: like `read_capture`, but returns the
raw sample view as `sample_count` uint16 values, plus the filtered view
when the header says one is present (version ≥ 2 and `has_filtered == 1`). -/
def read_capture_dual (f : Flash) (slot : Int) :
    Option (CaptureHeader × List Nat × Option (List Nat)) :=
  if slot < 0 ∨ (MAX_CAPTURES : Int) ≤ slot then none
  else
    let s := getSlot f slot.toNat
    let header := parseHeader s
    if header.magic ≠ MAGIC then none
    else
      let raw := readSamples s 32 header.sample_count
      let filtered :=
        if 2 ≤ header.version ∧ header.has_filtered = 1 then
          some (readSamples s (32 + 2 * header.sample_count) header.sample_count)
        else none
      some (header, raw, filtered)

/-- Flip bit `bit` of byte `byteIdx` of slot `slotIdx` (an adversarial
single-bit corruption of persisted data, used by the checksum claims). -/
def flipBit (f : Flash) (slotIdx byteIdx bit : Nat) : Flash :=
  let s := getSlot f slotIdx
  Flash.mk (f.slots.set slotIdx (s.set byteIdx (readByte s byteIdx ^^^ 2 ^ bit)))

/-- A freshly erased data partition: ten slots, no byte programmed. -/
def emptyFlash : Flash :=
  Flash.mk (List.replicate 10 [])

-- ==================================================
-- DataCollector (data_collector.h / data_collector.cpp)
-- ==================================================

/-- DataCollector::State. -/
inductive DCState
  | IDLE
  | PREPARING
  | COLLECTING
  | WRITING_FLASH
  | COMPLETE
  | ERROR
deriving DecidableEq

/-- The DataCollector object.  The dynamically allocated `uint16_t*` capture
buffers become `Option (List Nat)` (`none` = `nullptr`, `some b` = an
allocation holding the samples `b`). -/
structure DataCollector where
  state : DCState
  raw_buffer : Option (List Nat)
  filtered_buffer : Option (List Nat)
  samples_collected : Nat
  target_samples : Nat
  buffer_size : Nat
  last_capture_slot : Nat
  filtering_enabled : Bool
deriving DecidableEq

/-- The constructor `DataCollector::DataCollector()`. -/
def DataCollector.init : DataCollector :=
  { state := DCState.IDLE
    raw_buffer := none
    filtered_buffer := none
    samples_collected := 0
    target_samples := 0
    buffer_size := 0
    last_capture_slot := 0
    filtering_enabled := false }

/-- `DataCollector::is_collecting`: COLLECTING or PREPARING. -/
def DataCollector.is_collecting (c : DataCollector) : Bool :=
  match c.state with
  | DCState.COLLECTING => true
  | DCState.PREPARING => true
  | _ => false

/-- `memcpy(buf + i, xs.data, xs.length * sizeof(uint16_t))` on a buffer
holding `b`: overwrite positions `i .. i + xs.length - 1`.  Faithful to the
C copy whenever `i + xs.length ≤ b.length`, which holds at every call site
reachable in the collector. -/
def writeAt (b : List Nat) (i : Nat) (xs : List Nat) : List Nat :=
  b.take i ++ xs ++ b.drop (i + xs.length)

/-- `DataCollector::allocate_buffers`.  `allocOk` models whether the
`new (std::nothrow)` allocations succeed; on any failure the code frees
whatever was partially allocated, leaving both buffers null, and returns
false.  Fresh buffers are zero-filled (`memset(..., 0, ...)`). -/
def DataCollector.allocate_buffers (c : DataCollector) (num_samples : Nat)
    (enable_filtering allocOk : Bool) : DataCollector × Bool :=
  let c0 := { c with raw_buffer := none, filtered_buffer := none, buffer_size := 0 }
  if allocOk = false then (c0, false)
  else if enable_filtering then
    ({ c0 with raw_buffer := some (List.replicate num_samples 0)
               filtered_buffer := some (List.replicate num_samples 0)
               buffer_size := num_samples }, true)
  else
    ({ c0 with raw_buffer := some (List.replicate num_samples 0)
               buffer_size := num_samples }, true)

/-- `DataCollector::start_collection(duration_ms, enable_filtering)`. -/
def DataCollector.start_collection (c : DataCollector) (duration_ms : Nat)
    (enable_filtering allocOk : Bool) : DataCollector × Bool :=
  if c.is_collecting then (c, false)
  else
    let target := SAMPLE_RATE_HZ * duration_ms / 1000
    let c1 := { c with target_samples := target
                       filtering_enabled := enable_filtering
                       state := DCState.PREPARING }
    let ab := c1.allocate_buffers target enable_filtering allocOk
    if ab.2 = false then ({ ab.1 with state := DCState.ERROR }, false)
    else ({ ab.1 with samples_collected := 0, state := DCState.COLLECTING }, true)

/-- `DataCollector::finalize_collection`, with the flash state and the
timestamp (`to_ms_since_boot`) passed explicitly. -/
def DataCollector.finalize_collection (c : DataCollector) (f : Flash) (timestamp : Nat) :
    DataCollector × Flash × Int :=
  if c.state ≠ DCState.COLLECTING then (c, f, -1)
  else
    let c1 := { c with state := DCState.WRITING_FLASH }
    let wr :=
      if c1.filtering_enabled && c1.filtered_buffer.isSome then
        write_capture_dual f c1.raw_buffer c1.filtered_buffer c1.samples_collected timestamp
      else
        write_capture_dual f c1.raw_buffer none c1.samples_collected timestamp
    if 0 ≤ wr.2 then
      ({ c1 with last_capture_slot := wr.2.toNat
                 state := DCState.COMPLETE
                 raw_buffer := none
                 filtered_buffer := none
                 buffer_size := 0 }, wr.1, wr.2)
    else
      ({ c1 with state := DCState.ERROR }, wr.1, wr.2)

/-- Copy phase of `DataCollector::process_buffer(raw_samples,
filtered_samples, count)` after the state and null checks: copy at most
`target - collected` samples into the owned buffers, and auto-finalize
when the target is reached.  The `memcpy` into a null buffer is
unreachable (COLLECTING always has a live raw buffer); the embedding makes
it a no-op via `Option.map`. -/
def DataCollector.process_buffer_checked (c : DataCollector) (f : Flash) (raw : List Nat)
    (filtered_samples : Option (List Nat)) (count timestamp : Nat) :
    DataCollector × Flash × Bool :=
  if count = 0 then (c, f, false)
  else
    let remaining := c.target_samples - c.samples_collected
    let to_copy := min count remaining
    let rbuf := c.raw_buffer.map (fun b => writeAt b c.samples_collected (raw.take to_copy))
    let c1 : DataCollector := { c with raw_buffer := rbuf }
    let c2 : DataCollector :=
      if c1.filtering_enabled && filtered_samples.isSome then
        let fbuf := c1.filtered_buffer.map (fun b => writeAt b c1.samples_collected ((filtered_samples.getD []).take to_copy))
        { c1 with filtered_buffer := fbuf }
      else c1
    let c3 : DataCollector := { c2 with samples_collected := c2.samples_collected + to_copy }
    if c3.target_samples ≤ c3.samples_collected then
      let fin := c3.finalize_collection f timestamp
      if fin.2.2 < 0 then ({ fin.1 with state := DCState.ERROR }, fin.2.1, true)
      else (fin.1, fin.2.1, true)
    else (c3, f, true)

/-- Entry checks of `DataCollector::process_buffer`: reject unless
COLLECTING, reject a null pointer, then run the copy phase above. -/
def DataCollector.process_buffer (c : DataCollector) (f : Flash)
    (raw_samples filtered_samples : Option (List Nat)) (count timestamp : Nat) :
    DataCollector × Flash × Bool :=
  if c.state ≠ DCState.COLLECTING then (c, f, false)
  else
    match raw_samples with
    | none => (c, f, false)
    | some raw => c.process_buffer_checked f raw filtered_samples count timestamp

/-- `DataCollector::cancel_collection`. -/
def DataCollector.cancel_collection (c : DataCollector) : DataCollector :=
  if c.is_collecting = false then c
  else
    { c with raw_buffer := none
             filtered_buffer := none
             buffer_size := 0
             state := DCState.IDLE
             samples_collected := 0
             target_samples := 0
             filtering_enabled := false }

/-- The collector states reachable by any sequence of public operations
from the freshly constructed object, over arbitrary flash states, inputs,
timestamps and allocation outcomes. -/
inductive DCReachable : DataCollector → Prop
  | init : DCReachable DataCollector.init
  | start (c : DataCollector) (d : Nat) (ef ok : Bool) :
      DCReachable c → DCReachable (c.start_collection d ef ok).1
  | process (c : DataCollector) (f : Flash) (raw filt : Option (List Nat)) (count ts : Nat) :
      DCReachable c → DCReachable (c.process_buffer f raw filt count ts).1
  | finalize (c : DataCollector) (f : Flash) (ts : Nat) :
      DCReachable c → DCReachable (c.finalize_collection f ts).1
  | cancel (c : DataCollector) : DCReachable c → DCReachable c.cancel_collection

/-- The collecting-state well-formedness invariant: while COLLECTING, the
collected count never exceeds the target and both owned buffers (raw
always, filtered when filtering is enabled) are live with exactly
`target_samples` elements. -/
def DCInv (c : DataCollector) : Prop :=
  c.state = DCState.COLLECTING →
    c.samples_collected ≤ c.target_samples ∧
    (∃ b, c.raw_buffer = some b ∧ b.length = c.target_samples) ∧
    (c.filtering_enabled = true →
      ∃ b, c.filtered_buffer = some b ∧ b.length = c.target_samples) ∧
    (c.filtering_enabled = false → c.filtered_buffer = none)

-- ==================================================
-- DMAADCSampler buffer protocol (dma_adc_sampler.cpp)
-- ==================================================

/-- The sampler's double-buffer bookkeeping state: the flag fields and
counters of `DMAADCSampler` that the completion interrupt, `get_ready_buffer`
and `release_buffer` read and write.  The sample data itself plays no role
in the flag protocol and is omitted. -/
structure SamplerState where
  buffer_a_ready : Bool
  buffer_b_ready : Bool
  using_buffer_a : Bool
  buffer_locked : Bool
  locked_buffer_is_a : Bool
  buffer_count : Nat
  overflow_count : Nat
deriving DecidableEq

/-- The state right after `start()` resets the protocol fields (DMA armed on
buffer A; `locked_buffer_is_a` keeps its constructor value `false`). -/
def SamplerState.start : SamplerState :=
  { buffer_a_ready := false
    buffer_b_ready := false
    using_buffer_a := true
    buffer_locked := false
    locked_buffer_is_a := false
    buffer_count := 0
    overflow_count := 0 }

/-- `DMAADCSampler::dma_irq_handler`: the buffer being filled just
completed.  Count it; if that buffer was still marked ready from a prior
cycle, count an overflow; mark it ready and retarget the DMA at the other
buffer. -/
def dma_irq_handler (s : SamplerState) : SamplerState :=
  let s1 := { s with buffer_count := s.buffer_count + 1 }
  if s1.using_buffer_a then
    { s1 with overflow_count := if s1.buffer_a_ready then s1.overflow_count + 1 else s1.overflow_count
              buffer_a_ready := true
              using_buffer_a := false }
  else
    { s1 with overflow_count := if s1.buffer_b_ready then s1.overflow_count + 1 else s1.overflow_count
              buffer_b_ready := true
              using_buffer_a := true }

/-- Identifies which of the two ping-pong buffers a returned pointer refers
to (`buffer_a` or `buffer_b`). -/
inductive BufferId
  | A
  | B
deriving DecidableEq

/-- `DMAADCSampler::get_ready_buffer`: hand out buffer A if ready and
nothing is locked, else buffer B under the same test, else nothing; a
successful handout sets the lock. -/
def get_ready_buffer (s : SamplerState) : SamplerState × Option BufferId :=
  if s.buffer_a_ready && !s.buffer_locked then
    ({ s with buffer_locked := true, locked_buffer_is_a := true }, some BufferId.A)
  else if s.buffer_b_ready && !s.buffer_locked then
    ({ s with buffer_locked := true, locked_buffer_is_a := false }, some BufferId.B)
  else (s, none)

/-- `DMAADCSampler::release_buffer`: clear the ready flag of the locked
buffer and drop the lock; a no-op when nothing is locked. -/
def release_buffer (s : SamplerState) : SamplerState :=
  if !s.buffer_locked then s
  else if s.locked_buffer_is_a then
    { s with buffer_a_ready := false, buffer_locked := false }
  else
    { s with buffer_b_ready := false, buffer_locked := false }

/-- Buffer A is currently lent out to the consumer. -/
def lockedA (s : SamplerState) : Bool :=
  s.buffer_locked && s.locked_buffer_is_a

/-- Buffer B is currently lent out to the consumer. -/
def lockedB (s : SamplerState) : Bool :=
  s.buffer_locked && !s.locked_buffer_is_a

/-- Sampler states reachable from the post-`start()` state by any
interleaving of completion interrupts, `get_ready_buffer` and
`release_buffer`. -/
inductive SamplerReachable : SamplerState → Prop
  | start : SamplerReachable SamplerState.start
  | irq (s : SamplerState) : SamplerReachable s → SamplerReachable (dma_irq_handler s)
  | acquire (s : SamplerState) : SamplerReachable s → SamplerReachable (get_ready_buffer s).1
  | release (s : SamplerState) : SamplerReachable s → SamplerReachable (release_buffer s)

-- ==================================================
-- MedianFilter (voltage_filter.cpp)
-- ==================================================

/-- The median filter's state: a `WINDOW_SIZE = 5` circular window plus the
insertion index.  The C window holds `float`s, but every value ever stored
is the exact cast of a `uint16_t` (or the literal `0.0f` from `reset`), and
the filter only stores, compares and returns these values, so the exact
nonnegative integers they denote embed them faithfully as `Nat`. -/
structure MedianFilter where
  buffer : List Nat
  index : Nat
deriving DecidableEq

/-- `MedianFilter::reset` (also the constructor): zero-fill the window. -/
def MedianFilter.reset : MedianFilter :=
  { buffer := List.replicate 5 0, index := 0 }

/-- `MedianFilter::process`: store the new sample at the circular index,
advance the index, sort a copy of the window (the C `insertion_sort` is a
stable ascending insertion sort, i.e. `List.insertionSort (· ≤ ·)`), and
return the middle element `sorted[WINDOW_SIZE / 2]`. -/
def MedianFilter.process (m : MedianFilter) (raw_adc : Nat) : MedianFilter × Nat :=
  let buf := m.buffer.set m.index raw_adc
  let sorted := List.insertionSort (· ≤ ·) buf
  ({ buffer := buf, index := (m.index + 1) % 5 }, sorted.getD 2 0)

-- ==================================================
-- Concrete states used by witnesses and counterexamples
-- ==================================================

/-- A flash whose ten slots all carry a matching magic word (every slot
occupied). -/
def fullFlash : Flash :=
  Flash.mk (List.replicate 10 (u32le MAGIC))

/-- A collector frozen mid-`finalize` in the WRITING_FLASH state, holding a
one-sample session. -/
def writingCollector : DataCollector :=
  { state := DCState.WRITING_FLASH
    raw_buffer := some [1]
    filtered_buffer := none
    samples_collected := 1
    target_samples := 1
    buffer_size := 1
    last_capture_slot := 0
    filtering_enabled := false }

/-- One step of the C5 scenario: feed one DMA batch of 512 raw samples into
the collector (filtering disabled, timestamp 0). -/
def scenarioStep (cf : DataCollector × Flash) : DataCollector × Flash :=
  let r := cf.1.process_buffer cf.2 (some (List.replicate 512 0)) none 512 0
  (r.1, r.2.1)

/-- The C5 scenario after `start_collection(1000, false)` on a fresh
collector over an erased partition, followed by `n` batches of 512. -/
def scenarioAfter (n : Nat) : DataCollector × Flash :=
  scenarioStep^[n] ((DataCollector.init.start_collection 1000 false true).1, emptyFlash)

/-- A collector in the middle of an active collecting session. -/
def collectingCollector : DataCollector :=
  { state := DCState.COLLECTING
    raw_buffer := some [0, 0, 0]
    filtered_buffer := none
    samples_collected := 1
    target_samples := 3
    buffer_size := 3
    last_capture_slot := 0
    filtering_enabled := false }

/-- The sampler after two completion interrupts with no consumer activity:
both buffers ready, the DMA about to refill buffer A. -/
def samplerTwoIrqs : SamplerState :=
  dma_irq_handler (dma_irq_handler SamplerState.start)

/-- Flash after writing a one-sample raw+filtered capture into slot 0 of an
erased partition (raw sample `1`, filtered sample `2`). -/
def cexWrittenFlash : Flash :=
  (write_capture_dual emptyFlash (some [1]) (some [2]) 1 0).1

/-- `cexWrittenFlash` with bit 0 of byte 34 of slot 0 flipped: byte 34 is
the first byte of the persisted filtered payload (header bytes 0-31, raw
payload bytes 32-33, filtered payload bytes 34-35). -/
def cexFlippedFlash : Flash :=
  flipBit cexWrittenFlash 0 34 0

/-- The bytes of a written slot after the record: erased-state padding up
to the sector-rounded erase size, then whatever the previous record left
beyond the erased region. -/
def slotTail (old wb : List Nat) : List Nat :=
  List.replicate
      ((wb.length + FLASH_SECTOR_SIZE - 1) / FLASH_SECTOR_SIZE * FLASH_SECTOR_SIZE -
        wb.length) 255 ++
    old.drop ((wb.length + FLASH_SECTOR_SIZE - 1) / FLASH_SECTOR_SIZE * FLASH_SECTOR_SIZE)

-- ==================================================
-- Theorems
-- ==================================================

/-- C9: the legacy `write_capture(samples, count, timestamp)` returns the
same result and produces the same stored record as
`write_capture_dual(samples, nullptr, count, timestamp)`, for all inputs:
the source defines it as exactly that delegation. -/
theorem write_capture_legacy_equiv (f : Flash) (samples : Option (List Nat))
    (count timestamp : Nat) :
    write_capture f samples count timestamp =
      write_capture_dual f samples none count timestamp :=
  rfl

/-- C6: calling `start_collection` while the session state is PREPARING or
COLLECTING returns false and leaves the whole collector object (every
field) unchanged. -/
theorem start_collection_rejected_while_active (c : DataCollector) (d : Nat)
    (ef ok : Bool) (h : c.state = DCState.PREPARING ∨ c.state = DCState.COLLECTING) :
    c.start_collection d ef ok = (c, false) := by
  rcases h with h | h <;>
    simp [DataCollector.start_collection, DataCollector.is_collecting, h]

/-- Witness for C6 at a concrete mid-collection collector. -/
theorem start_collection_rejected_while_active_witness :
    collectingCollector.start_collection 7 true true = (collectingCollector, false) :=
  start_collection_rejected_while_active collectingCollector 7 true true (Or.inr rfl)

/-- C7 counterexample: from the WRITING_FLASH state, `cancel_collection`
does not free the buffers, reset the counters, or return to IDLE — the
`is_collecting()` guard (COLLECTING or PREPARING only) makes it a no-op, so
the claim that cancel works from any of Preparing/Collecting/WritingStore
fails at this concrete input. -/
theorem cancel_from_writing_flash_cex :
    writingCollector.cancel_collection = writingCollector ∧
      writingCollector.cancel_collection.state ≠ DCState.IDLE := by
  constructor
  · rfl
  · decide

/-- C7 as amended: from PREPARING or COLLECTING, `cancel_collection` frees
both capture buffers, resets the collected and target counters (and the
filtering flag) to zero, and returns the state to IDLE; from WRITING_FLASH
it is a no-op. -/
theorem cancel_collection_behavior (c : DataCollector) :
    ((c.state = DCState.PREPARING ∨ c.state = DCState.COLLECTING) →
      c.cancel_collection =
        { state := DCState.IDLE
          raw_buffer := none
          filtered_buffer := none
          samples_collected := 0
          target_samples := 0
          buffer_size := 0
          last_capture_slot := c.last_capture_slot
          filtering_enabled := false }) ∧
    (c.state = DCState.WRITING_FLASH → c.cancel_collection = c) := by
  constructor
  · rintro (h | h) <;>
      simp [DataCollector.cancel_collection, DataCollector.is_collecting, h]
  · intro h
    simp [DataCollector.cancel_collection, DataCollector.is_collecting, h]

/-- Witness for C7 (amended) at concrete collectors in the COLLECTING and
WRITING_FLASH states. -/
theorem cancel_collection_behavior_witness :
    collectingCollector.cancel_collection =
        { state := DCState.IDLE
          raw_buffer := none
          filtered_buffer := none
          samples_collected := 0
          target_samples := 0
          buffer_size := 0
          last_capture_slot := 0
          filtering_enabled := false } ∧
      writingCollector.cancel_collection = writingCollector :=
  ⟨(cancel_collection_behavior collectingCollector).1 (Or.inr rfl),
    (cancel_collection_behavior writingCollector).2 rfl⟩

/-- C8: in every reachable sampler state, at most one buffer is lent out
(A and B are never locked simultaneously); while a buffer is locked,
`get_ready_buffer` returns no pointer at all (in particular never the
locked buffer's); and when a completion interrupt targets a buffer whose
ready flag is still set — i.e. `release_buffer` was not called for it since
it last filled — the overflow counter increments by exactly 1. -/
theorem sampler_lock_and_overflow (s : SamplerState) (h : SamplerReachable s) :
    (¬(lockedA s = true ∧ lockedB s = true)) ∧
      (s.buffer_locked = true → (get_ready_buffer s).2 = none) ∧
      (s.using_buffer_a = true → s.buffer_a_ready = true →
        (dma_irq_handler s).overflow_count = s.overflow_count + 1) ∧
      (s.using_buffer_a = false → s.buffer_b_ready = true →
        (dma_irq_handler s).overflow_count = s.overflow_count + 1) := by
  refine ⟨?_, ?_, ?_, ?_⟩
  · rintro ⟨ha, hb⟩
    simp [lockedA] at ha
    simp [lockedB] at hb
    rw [ha.2] at hb
    exact absurd hb.2 (by simp)
  · intro hl
    simp [get_ready_buffer, hl]
  · intro hu hr
    simp [dma_irq_handler, hu, hr]
  · intro hu hr
    simp [dma_irq_handler, hu, hr]

/-- Witness for C8: after two unconsumed completion interrupts the next
interrupt targets buffer A, whose ready flag is still set, and the overflow
counter increments by exactly 1. -/
theorem sampler_lock_and_overflow_witness :
    (dma_irq_handler samplerTwoIrqs).overflow_count = samplerTwoIrqs.overflow_count + 1 :=
  (sampler_lock_and_overflow samplerTwoIrqs
      (SamplerReachable.irq _ (SamplerReachable.irq _ SamplerReachable.start))).2.2.1
    rfl rfl

/-- Sorting a five-element window holding two arbitrary values and three
zeros always has 0 as its middle element: the zeros are minimal, so at
least the first three sorted positions are 0. -/
theorem insertionSort_two_and_three_zeros (a b : Nat) :
    (List.insertionSort (· ≤ ·) [a, b, 0, 0, 0]).getD 2 0 = 0 := by
  rcases a with _ | a <;> rcases b with _ | b <;>
    simp [List.insertionSort, List.orderedInsert]

/-- C10: after construction or `reset` the median window is zero-filled, so
the first two `MedianFilter::process` calls return 0 for every pair of
inputs — the window still holds at least three zeros, whose median is 0. -/
theorem median_filter_first_two_outputs_zero (x1 x2 : Nat) :
    (MedianFilter.reset.process x1).2 = 0 ∧
      ((MedianFilter.reset.process x1).1.process x2).2 = 0 := by
  constructor
  · show (List.insertionSort (· ≤ ·) [x1, 0, 0, 0, 0]).getD 2 0 = 0
    exact insertionSort_two_and_three_zeros x1 0
  · show (List.insertionSort (· ≤ ·) [x1, x2, 0, 0, 0]).getD 2 0 = 0
    exact insertionSort_two_and_three_zeros x1 x2

/-- Reading a byte inside the left part of an append sees the left part. -/
theorem readByte_append_left (l1 l2 : List Nat) (i : Nat) (h : i < l1.length) :
    readByte (l1 ++ l2) i = readByte l1 i :=
  List.getD_append l1 l2 255 i h

/-- Reading a byte past the left part of an append sees the right part. -/
theorem readByte_append_add (A rest : List Nat) (k : Nat) :
    readByte (A ++ rest) (A.length + k) = readByte rest k := by
  unfold readByte
  rw [List.getD_append_right A rest 255 (A.length + k) (Nat.le_add_right _ _),
    Nat.add_sub_cancel_left]

/-- Base-256 digit decomposition of the low 32 bits of a value. -/
theorem mod_2pow32_decomp (v : Nat) :
    v % 4294967296 =
      v % 256 + 256 * (v / 256 % 256) + 65536 * (v / 65536 % 256) +
        16777216 * (v / 16777216 % 256) := by
  omega

/-- Reading back a serialized `uint32_t` recovers its low 32 bits. -/
theorem readU32_u32le (v : Nat) (rest : List Nat) :
    readU32 (u32le v ++ rest) 0 = v % 4294967296 := by
  simp [readU32, u32le, readByte]
  omega

/-- A `readU32` offset beyond an appended block indexes past it. -/
theorem readU32_append_add (A T : List Nat) (k : Nat) :
    readU32 (A ++ T) (A.length + k) = readU32 T k := by
  unfold readU32
  rw [show A.length + k + 1 = A.length + (k + 1) by ring,
    show A.length + k + 2 = A.length + (k + 2) by ring,
    show A.length + k + 3 = A.length + (k + 3) by ring,
    readByte_append_add, readByte_append_add, readByte_append_add, readByte_append_add]

/-- Skip one serialized `uint32_t` block when reading at offset `4 + k`. -/
theorem readU32_skip4 (v : Nat) (T : List Nat) (k : Nat) :
    readU32 (u32le v ++ T) (4 + k) = readU32 T k :=
  readU32_append_add (u32le v) T k

/-- Parsing the serialized header (followed by anything) recovers the low
32 bits of every field, at the struct offsets 0, 4, ..., 28. -/
theorem parseHeader_append (h : CaptureHeader) (rest : List Nat) :
    parseHeader (headerBytes h ++ rest) =
      { magic := h.magic % 4294967296
        version := h.version % 4294967296
        sample_rate := h.sample_rate % 4294967296
        sample_count := h.sample_count % 4294967296
        timestamp := h.timestamp % 4294967296
        checksum := h.checksum % 4294967296
        has_filtered := h.has_filtered % 4294967296
        checksum_filt := h.checksum_filt % 4294967296 } := by
  unfold parseHeader headerBytes
  simp only [List.append_assoc]
  congr 1
  · exact readU32_u32le _ _
  · exact (readU32_skip4 h.magic _ 0).trans (readU32_u32le _ _)
  · exact (readU32_skip4 h.magic _ 4).trans
      ((readU32_skip4 h.version _ 0).trans (readU32_u32le _ _))
  · exact (readU32_skip4 h.magic _ 8).trans ((readU32_skip4 h.version _ 4).trans
      ((readU32_skip4 h.sample_rate _ 0).trans (readU32_u32le _ _)))
  · exact (readU32_skip4 h.magic _ 12).trans ((readU32_skip4 h.version _ 8).trans
      ((readU32_skip4 h.sample_rate _ 4).trans
        ((readU32_skip4 h.sample_count _ 0).trans (readU32_u32le _ _))))
  · exact (readU32_skip4 h.magic _ 16).trans ((readU32_skip4 h.version _ 12).trans
      ((readU32_skip4 h.sample_rate _ 8).trans ((readU32_skip4 h.sample_count _ 4).trans
        ((readU32_skip4 h.timestamp _ 0).trans (readU32_u32le _ _)))))
  · exact (readU32_skip4 h.magic _ 20).trans ((readU32_skip4 h.version _ 16).trans
      ((readU32_skip4 h.sample_rate _ 12).trans ((readU32_skip4 h.sample_count _ 8).trans
        ((readU32_skip4 h.timestamp _ 4).trans
          ((readU32_skip4 h.checksum _ 0).trans (readU32_u32le _ _))))))
  · exact (readU32_skip4 h.magic _ 24).trans ((readU32_skip4 h.version _ 20).trans
      ((readU32_skip4 h.sample_rate _ 16).trans ((readU32_skip4 h.sample_count _ 12).trans
        ((readU32_skip4 h.timestamp _ 8).trans ((readU32_skip4 h.checksum _ 4).trans
          ((readU32_skip4 h.has_filtered _ 0).trans (readU32_u32le _ _)))))))

/-- The serialized sample payload has two bytes per sample. -/
theorem bytesLE_length (xs : List Nat) : (bytesLE xs).length = 2 * xs.length := by
  induction xs with
  | nil => rfl
  | cons v t ih =>
    simp [bytesLE, ih]
    omega

/-- Every byte of a serialized sample payload is below 256. -/
theorem bytesLE_lt (xs : List Nat) : ∀ b ∈ bytesLE xs, b < 256 := by
  induction xs with
  | nil => simp [bytesLE]
  | cons v t ih =>
    intro b hb
    simp only [bytesLE, List.mem_cons] at hb
    rcases hb with h | h | h
    · exact h ▸ Nat.mod_lt _ (by norm_num)
    · exact h ▸ Nat.mod_lt _ (by norm_num)
    · exact ih b h

/-- Even byte `2*i` of the serialized payload is the low byte of sample `i`. -/
theorem bytesLE_getD_even (xs : List Nat) (i : Nat) (h : i < xs.length) :
    (bytesLE xs).getD (2 * i) 255 = xs.getD i 0 % 256 := by
  induction xs generalizing i with
  | nil => simp at h
  | cons v t ih =>
    cases i with
    | zero => simp [bytesLE]
    | succ j =>
      have hj : j < t.length := by simpa using h
      show (v % 256 :: v / 256 % 256 :: bytesLE t).getD (2 * (j + 1)) 255 =
        (v :: t).getD (j + 1) 0 % 256
      rw [show 2 * (j + 1) = 2 * j + 1 + 1 by ring, List.getD_cons_succ, List.getD_cons_succ,
        List.getD_cons_succ]
      exact ih j hj

/-- Odd byte `2*i + 1` of the serialized payload is the high byte of sample `i`. -/
theorem bytesLE_getD_odd (xs : List Nat) (i : Nat) (h : i < xs.length) :
    (bytesLE xs).getD (2 * i + 1) 255 = xs.getD i 0 / 256 % 256 := by
  induction xs generalizing i with
  | nil => simp at h
  | cons v t ih =>
    cases i with
    | zero => simp [bytesLE]
    | succ j =>
      have hj : j < t.length := by simpa using h
      show (v % 256 :: v / 256 % 256 :: bytesLE t).getD (2 * (j + 1) + 1) 255 =
        (v :: t).getD (j + 1) 0 / 256 % 256
      rw [show 2 * (j + 1) + 1 = 2 * j + 1 + 1 + 1 by ring, List.getD_cons_succ,
        List.getD_cons_succ, List.getD_cons_succ]
      exact ih j hj

/-- Reading `n` bytes at an offset past an appended block reads the tail. -/
theorem readBytesList_append_add (A tail : List Nat) (off n : Nat) :
    readBytesList (A ++ tail) (A.length + off) n = readBytesList tail off n := by
  unfold readBytesList
  apply List.map_congr_left
  intro i _
  rw [show A.length + off + i = A.length + (off + i) by ring, readByte_append_add]

/-- Reading an appended block back from offset 0 recovers it exactly. -/
theorem readBytesList_append_prefix (B rest : List Nat) :
    readBytesList (B ++ rest) 0 B.length = B := by
  apply List.ext_getElem
  · simp [readBytesList]
  · intro i h1 h2
    simp only [readBytesList, List.getElem_map, List.getElem_range, readByte, Nat.zero_add]
    rw [List.getD_append B rest 255 i h2, List.getD_eq_getElem B 255 h2]

/-- Reading samples at an offset past an appended block reads the tail. -/
theorem readSamples_append_add (A tail : List Nat) (off n : Nat) :
    readSamples (A ++ tail) (A.length + off) n = readSamples tail off n := by
  unfold readSamples
  apply List.map_congr_left
  intro i _
  rw [show A.length + off + 2 * i + 1 = A.length + (off + 2 * i + 1) by ring,
    show A.length + off + 2 * i = A.length + (off + 2 * i) by ring,
    readByte_append_add, readByte_append_add]

/-- Reading back a serialized sample payload from offset 0 recovers the low
16 bits of every sample. -/
theorem readSamples_bytesLE (xs rest : List Nat) :
    readSamples (bytesLE xs ++ rest) 0 xs.length = xs.map (· % 65536) := by
  apply List.ext_getElem
  · simp [readSamples]
  · intro i h1 h2
    have hx : i < xs.length := by simpa using h2
    have hlen : 2 * i + 1 < (bytesLE xs).length := by
      rw [bytesLE_length]
      omega
    simp only [readSamples, List.getElem_map, List.getElem_range, readByte, Nat.zero_add]
    rw [List.getD_append _ rest 255 (2 * i) (by omega),
      List.getD_append _ rest 255 (2 * i + 1) hlen,
      bytesLE_getD_even xs i hx, bytesLE_getD_odd xs i hx,
      List.getD_eq_getElem xs 0 hx]
    omega

/-- One CRC bit step keeps the state inside 32 bits. -/
theorem crcStep_lt {c : Nat} (h : c < 2 ^ 32) : crcStep c < 2 ^ 32 := by
  have h1 : c / 2 < 2 ^ 32 := lt_of_le_of_lt (Nat.div_le_self c 2) h
  unfold crcStep
  split <;> exact Nat.xor_lt_two_pow h1 (by norm_num)

/-- Iterated CRC bit steps keep the state inside 32 bits. -/
theorem crcStep_iter_lt (n : Nat) {c : Nat} (h : c < 2 ^ 32) : crcStep^[n] c < 2 ^ 32 := by
  induction n generalizing c with
  | zero => exact h
  | succ k ih =>
    rw [Function.iterate_succ_apply]
    exact ih (crcStep_lt h)

/-- The CRC bit step is injective on 32-bit states: it is the affine update
`c ↦ (c >> 1) ^ mask(c & 1)`, and the polynomial's top bit recovers the
shifted-out low bit. -/
theorem crcStep_inj {a b : Nat} (ha : a < 2 ^ 32) (hb : b < 2 ^ 32)
    (h : crcStep a = crcStep b) : a = b := by
  have hA : a / 2 < 2 ^ 31 := Nat.div_lt_of_lt_mul (by norm_num at ha ⊢; omega)
  have hB : b / 2 < 2 ^ 31 := Nat.div_lt_of_lt_mul (by norm_num at hb ⊢; omega)
  have htA : (a / 2).testBit 31 = false := Nat.testBit_lt_two_pow hA
  have htB : (b / 2).testBit 31 = false := Nat.testBit_lt_two_pow hB
  unfold crcStep at h
  rcases Nat.mod_two_eq_zero_or_one a with h1 | h1 <;>
    rcases Nat.mod_two_eq_zero_or_one b with h2 | h2
  · simp [h1, h2] at h
    omega
  · rw [if_neg (by omega), if_pos h2, Nat.xor_zero] at h
    have : (b / 2 ^^^ 0xEDB88320).testBit 31 = true := by
      rw [Nat.testBit_xor, htB]
      decide
    rw [← h, htA] at this
    exact absurd this (by simp)
  · rw [if_pos h1, if_neg (by omega), Nat.xor_zero] at h
    have : (a / 2 ^^^ 0xEDB88320).testBit 31 = true := by
      rw [Nat.testBit_xor, htA]
      decide
    rw [h, htB] at this
    exact absurd this (by simp)
  · rw [if_pos h1, if_pos h2] at h
    have hd : a / 2 = b / 2 := by
      have e1 := Nat.xor_cancel_right 0xEDB88320 (a / 2)
      have e2 := Nat.xor_cancel_right 0xEDB88320 (b / 2)
      rw [← e1, ← e2, h]
    omega

/-- Iterated CRC bit steps are injective on 32-bit states. -/
theorem crcStep_iter_inj (n : Nat) {a b : Nat} (ha : a < 2 ^ 32) (hb : b < 2 ^ 32)
    (h : crcStep^[n] a = crcStep^[n] b) : a = b := by
  induction n generalizing a b with
  | zero => exact h
  | succ k ih =>
    rw [Function.iterate_succ_apply, Function.iterate_succ_apply] at h
    exact crcStep_inj ha hb (ih (crcStep_lt ha) (crcStep_lt hb) h)

/-- A CRC byte step keeps the state inside 32 bits. -/
theorem crcByteStep_lt {c b : Nat} (hc : c < 2 ^ 32) (hb : b < 2 ^ 32) :
    crcByteStep c b < 2 ^ 32 :=
  crcStep_iter_lt 8 (Nat.xor_lt_two_pow hc hb)

/-- A CRC byte step is injective in the running state. -/
theorem crcByteStep_inj_state {c1 c2 b : Nat} (h1 : c1 < 2 ^ 32) (h2 : c2 < 2 ^ 32)
    (hb : b < 2 ^ 32) (h : crcByteStep c1 b = crcByteStep c2 b) : c1 = c2 := by
  have hx := crcStep_iter_inj 8 (Nat.xor_lt_two_pow h1 hb) (Nat.xor_lt_two_pow h2 hb) h
  have e1 := Nat.xor_cancel_right b c1
  have e2 := Nat.xor_cancel_right b c2
  rw [← e1, ← e2, hx]

/-- A CRC byte step is injective in the byte for a fixed state. -/
theorem crcByteStep_inj_byte {c b1 b2 : Nat} (hc : c < 2 ^ 32) (hb1 : b1 < 2 ^ 32)
    (hb2 : b2 < 2 ^ 32) (h : crcByteStep c b1 = crcByteStep c b2) : b1 = b2 := by
  have hx := crcStep_iter_inj 8 (Nat.xor_lt_two_pow hc hb1) (Nat.xor_lt_two_pow hc hb2) h
  have e1 : c ^^^ (c ^^^ b1) = b1 := by
    rw [← Nat.xor_assoc, Nat.xor_self, Nat.zero_xor]
  have e2 : c ^^^ (c ^^^ b2) = b2 := by
    rw [← Nat.xor_assoc, Nat.xor_self, Nat.zero_xor]
  rw [← e1, ← e2, hx]

/-- The CRC byte loop keeps the state inside 32 bits. -/
theorem crcFold_lt (l : List Nat) {c : Nat} (hl : ∀ x ∈ l, x < 2 ^ 32) (hc : c < 2 ^ 32) :
    crcFold c l < 2 ^ 32 := by
  induction l generalizing c with
  | nil => exact hc
  | cons x t ih =>
    rw [crcFold, List.foldl_cons]
    exact ih (fun y hy => hl y (List.mem_cons_of_mem x hy))
      (crcByteStep_lt hc (hl x (List.mem_cons_self x t)))

/-- The CRC byte loop over a fixed byte list is injective in the starting
state. -/
theorem crcFold_inj_state (l : List Nat) {c1 c2 : Nat} (hl : ∀ x ∈ l, x < 2 ^ 32)
    (h1 : c1 < 2 ^ 32) (h2 : c2 < 2 ^ 32) (h : crcFold c1 l = crcFold c2 l) : c1 = c2 := by
  induction l generalizing c1 c2 with
  | nil => exact h
  | cons x t ih =>
    simp only [crcFold, List.foldl_cons] at h
    have hx : x < 2 ^ 32 := hl x (List.mem_cons_self x t)
    have ht : ∀ y ∈ t, y < 2 ^ 32 := fun y hy => hl y (List.mem_cons_of_mem x hy)
    exact crcByteStep_inj_state h1 h2 hx
      (ih ht (crcByteStep_lt h1 hx) (crcByteStep_lt h2 hx) h)

/-- Changing exactly one byte of the input changes the CRC byte loop's
result (the cornerstone of single-bit-flip detection). -/
theorem crcFold_flip_ne (P T : List Nat) {b1 b2 c : Nat} (hb1 : b1 < 2 ^ 32)
    (hb2 : b2 < 2 ^ 32) (hne : b1 ≠ b2) (hP : ∀ x ∈ P, x < 2 ^ 32)
    (hT : ∀ x ∈ T, x < 2 ^ 32) (hc : c < 2 ^ 32) :
    crcFold c (P ++ b1 :: T) ≠ crcFold c (P ++ b2 :: T) := by
  induction P generalizing c with
  | nil =>
    intro h
    simp only [List.nil_append, crcFold, List.foldl_cons] at h
    exact hne (crcByteStep_inj_byte hc hb1 hb2
      (crcFold_inj_state T hT (crcByteStep_lt hc hb1) (crcByteStep_lt hc hb2) h))
  | cons p P ih =>
    intro h
    simp only [List.cons_append, crcFold, List.foldl_cons] at h
    have hp : p < 2 ^ 32 := hP p (List.mem_cons_self p P)
    exact ih (fun y hy => hP y (List.mem_cons_of_mem p hy)) (crcByteStep_lt hc hp) h

/-- `crc32` stays inside 32 bits for byte inputs. -/
theorem crc32_lt (l : List Nat) (hl : ∀ x ∈ l, x < 2 ^ 32) : crc32 l < 2 ^ 32 :=
  Nat.xor_lt_two_pow (crcFold_lt l hl (by norm_num)) (by norm_num)

/-- Changing exactly one byte of the input changes `crc32`. -/
theorem crc32_flip_ne (P T : List Nat) {b1 b2 : Nat} (hb1 : b1 < 2 ^ 32)
    (hb2 : b2 < 2 ^ 32) (hne : b1 ≠ b2) (hP : ∀ x ∈ P, x < 2 ^ 32)
    (hT : ∀ x ∈ T, x < 2 ^ 32) :
    crc32 (P ++ b1 :: T) ≠ crc32 (P ++ b2 :: T) := by
  intro h
  unfold crc32 at h
  have e1 := Nat.xor_cancel_right 0xFFFFFFFF (crcFold 0xFFFFFFFF (P ++ b1 :: T))
  have e2 := Nat.xor_cancel_right 0xFFFFFFFF (crcFold 0xFFFFFFFF (P ++ b2 :: T))
  refine crcFold_flip_ne P T hb1 hb2 hne hP hT
    (show (4294967295 : Nat) < 2 ^ 32 by norm_num) ?_
  rw [← e1, ← e2, h]

/-- The serialized header occupies exactly 32 bytes. -/
theorem headerBytes_length (h : CaptureHeader) : (headerBytes h).length = 32 := rfl

/-- The raw payload of a record occupies exactly `2 * count` bytes when the
caller's buffer holds at least `count` samples. -/
theorem rawPayload_length (raw : List Nat) (count : Nat) (h : count ≤ raw.length) :
    (bytesLE (raw.take count)).length = 2 * count := by
  rw [bytesLE_length, List.length_take, min_eq_left h]

/-- Offset-normalized form of `readBytesList_append_add`. -/
theorem readBytesList_append_off (A tail : List Nat) (off n m : Nat)
    (h : m = A.length + off) :
    readBytesList (A ++ tail) m n = readBytesList tail off n :=
  h ▸ readBytesList_append_add A tail off n

/-- Count-normalized form of `readBytesList_append_prefix`. -/
theorem readBytesList_append_prefix_n (B rest : List Nat) (n : Nat) (h : n = B.length) :
    readBytesList (B ++ rest) 0 n = B :=
  h ▸ readBytesList_append_prefix B rest

/-- Offset-normalized form of `readSamples_append_add`. -/
theorem readSamples_append_off (A tail : List Nat) (off n m : Nat)
    (h : m = A.length + off) :
    readSamples (A ++ tail) m n = readSamples tail off n :=
  h ▸ readSamples_append_add A tail off n

/-- Count-normalized form of `readSamples_bytesLE`. -/
theorem readSamples_bytesLE_n (xs rest : List Nat) (n : Nat) (h : n = xs.length) :
    readSamples (bytesLE xs ++ rest) 0 n = xs.map (· % 65536) :=
  h ▸ readSamples_bytesLE xs rest

/-- A written slot splits as serialized header, then raw payload, then
filtered payload, then trailing bytes. -/
theorem writtenSlot_split (old raw : List Nat) (filt : Option (List Nat)) (count ts : Nat) :
    overwriteSlot old (writeRecordBytes raw filt count ts) =
      headerBytes (recordHeader raw filt count ts) ++
        (bytesLE (raw.take count) ++ (filtPayload filt count ++
          slotTail old (writeRecordBytes raw filt count ts))) := by
  unfold overwriteSlot writeRecordBytes slotTail
  simp [List.append_assoc]

/-- Parsing a freshly written slot recovers the built header, truncated to
32 bits per field. -/
theorem parse_writtenSlot (old raw : List Nat) (filt : Option (List Nat)) (count ts : Nat) :
    parseHeader (overwriteSlot old (writeRecordBytes raw filt count ts)) =
      { magic := (recordHeader raw filt count ts).magic % 4294967296
        version := (recordHeader raw filt count ts).version % 4294967296
        sample_rate := (recordHeader raw filt count ts).sample_rate % 4294967296
        sample_count := (recordHeader raw filt count ts).sample_count % 4294967296
        timestamp := (recordHeader raw filt count ts).timestamp % 4294967296
        checksum := (recordHeader raw filt count ts).checksum % 4294967296
        has_filtered := (recordHeader raw filt count ts).has_filtered % 4294967296
        checksum_filt := (recordHeader raw filt count ts).checksum_filt % 4294967296 } := by
  rw [writtenSlot_split old raw filt count ts]
  exact parseHeader_append _ _

/-- The raw payload bytes of a freshly written slot read back exactly. -/
theorem readBytes_writtenSlot (old raw : List Nat) (filt : Option (List Nat))
    (count ts : Nat) (hraw : count ≤ raw.length) :
    readBytesList (overwriteSlot old (writeRecordBytes raw filt count ts)) 32 (2 * count) =
      bytesLE (raw.take count) := by
  rw [writtenSlot_split old raw filt count ts,
    readBytesList_append_off _ _ 0 (2 * count) 32 (by rw [headerBytes_length])]
  exact readBytesList_append_prefix_n _ _ (2 * count)
    (by rw [rawPayload_length raw count hraw])

/-- The raw sample view of a freshly written slot reads back the low 16
bits of the written samples. -/
theorem readSamples_writtenSlot (old raw : List Nat) (filt : Option (List Nat))
    (count ts : Nat) (hraw : count ≤ raw.length) :
    readSamples (overwriteSlot old (writeRecordBytes raw filt count ts)) 32 count =
      (raw.take count).map (· % 65536) := by
  rw [writtenSlot_split old raw filt count ts,
    readSamples_append_off _ _ 0 count 32 (by rw [headerBytes_length])]
  exact readSamples_bytesLE_n _ _ count (by rw [List.length_take, min_eq_left hraw])

/-- The filtered sample view of a freshly written dual record reads back
the low 16 bits of the written filtered samples. -/
theorem readSamplesFilt_writtenSlot (old raw fl : List Nat) (count ts : Nat)
    (hraw : count ≤ raw.length) (hfl : count ≤ fl.length) :
    readSamples (overwriteSlot old (writeRecordBytes raw (some fl) count ts))
        (32 + 2 * count) count = (fl.take count).map (· % 65536) := by
  have hsplit := writtenSlot_split old raw (some fl) count ts
  rw [← List.append_assoc] at hsplit
  have hlen : (headerBytes (recordHeader raw (some fl) count ts) ++
      bytesLE (raw.take count)).length = 32 + 2 * count := by
    rw [List.length_append, headerBytes_length, rawPayload_length raw count hraw]
  rw [hsplit, readSamples_append_off _ _ 0 count (32 + 2 * count) (by rw [hlen]; omega)]
  show readSamples (filtPayload (some fl) count ++ _) 0 count = _
  exact readSamples_bytesLE_n _ _ count (by rw [List.length_take, min_eq_left hfl])

/-- Reading back the position just set in a list yields the new value. -/
theorem getD_set_self {α : Type} (l : List α) (i : Nat) (a d : α) (h : i < l.length) :
    (l.set i a).getD i d = a := by
  rw [List.getD_eq_getElem _ _ (by rw [List.length_set]; exact h)]
  exact List.getElem_set_self _

/-- A byte of the written record stays inside 32 bits (payload bytes are
below 256 and header bytes are `% 256` images). -/
theorem rawPayload_bytes_lt (raw : List Nat) (count : Nat) :
    ∀ x ∈ bytesLE (raw.take count), x < 2 ^ 32 :=
  fun x hx => lt_trans (bytesLE_lt _ x hx) (by norm_num)

/-- The CRC stored for the raw payload is already a 32-bit value. -/
theorem recordChecksum_lt (raw : List Nat) (count : Nat) :
    crc32 (bytesLE (raw.take count)) < 2 ^ 32 :=
  crc32_lt _ (rawPayload_bytes_lt raw count)

/-- An `Int`-typed slot index made from a `Nat` below MAX_CAPTURES passes
the bounds check of the read path. -/
theorem slotIndex_ok (s : Nat) (hs : s < MAX_CAPTURES) :
    ¬((Int.ofNat s : Int) < 0 ∨ (MAX_CAPTURES : Int) ≤ Int.ofNat s) := by
  simp only [Int.ofNat_eq_natCast]
  unfold MAX_CAPTURES at hs ⊢
  omega

/-- The slot contents seen through `getSlot` right after `write` replaced
slot `s`. -/
theorem getSlot_set (f : Flash) (s : Nat) (S : List Nat) (hslen : s < f.slots.length) :
    getSlot (Flash.mk (f.slots.set s S)) (Int.ofNat s).toNat = S := by
  unfold getSlot
  exact getD_set_self _ _ _ _ hslen

/-- `read_capture` on a freshly written slot succeeds and returns the
parsed header together with the raw payload bytes. -/
theorem read_capture_writtenSlot (f : Flash) (old raw : List Nat)
    (filt : Option (List Nat)) (count ts s : Nat) (hs10 : s < MAX_CAPTURES)
    (hslen : s < f.slots.length) (hraw : count ≤ raw.length)
    (hcount : count < 4294967296) :
    read_capture
        (Flash.mk (f.slots.set s (overwriteSlot old (writeRecordBytes raw filt count ts))))
        (Int.ofNat s) =
      some (parseHeader (overwriteSlot old (writeRecordBytes raw filt count ts)),
        bytesLE (raw.take count)) := by
  unfold read_capture
  rw [if_neg (slotIndex_ok s hs10), getSlot_set f s _ hslen]
  have hmagic : (parseHeader (overwriteSlot old (writeRecordBytes raw filt count ts))).magic =
      MAGIC := by
    rw [parse_writtenSlot]
    rfl
  have hcnt : (parseHeader (overwriteSlot old (writeRecordBytes raw filt count ts))).sample_count =
      count := by
    rw [parse_writtenSlot]
    show (recordHeader raw filt count ts).sample_count % 4294967296 = count
    exact Nat.mod_eq_of_lt hcount
  rw [if_neg (by rw [hmagic]; exact fun h => h rfl), hcnt,
    readBytes_writtenSlot old raw filt count ts hraw]

/-- `verify_capture` succeeds on a freshly written slot: the stored raw
checksum is the CRC-32 of exactly the bytes read back. -/
theorem verify_writtenSlot (f : Flash) (old raw : List Nat) (filt : Option (List Nat))
    (count ts s : Nat) (hs10 : s < MAX_CAPTURES) (hslen : s < f.slots.length)
    (hraw : count ≤ raw.length) (hcount : count < 4294967296) :
    verify_capture
        (Flash.mk (f.slots.set s (overwriteSlot old (writeRecordBytes raw filt count ts))))
        (Int.ofNat s) = true := by
  unfold verify_capture
  rw [read_capture_writtenSlot f old raw filt count ts s hs10 hslen hraw hcount]
  have hmagic : (parseHeader (overwriteSlot old (writeRecordBytes raw filt count ts))).magic =
      MAGIC := by
    rw [parse_writtenSlot]
    rfl
  have hck : (parseHeader (overwriteSlot old (writeRecordBytes raw filt count ts))).checksum =
      crc32 (bytesLE (raw.take count)) := by
    rw [parse_writtenSlot]
    show (recordHeader raw filt count ts).checksum % 4294967296 = crc32 (bytesLE (raw.take count))
    exact Nat.mod_eq_of_lt (recordChecksum_lt raw count)
  show (if (parseHeader (overwriteSlot old (writeRecordBytes raw filt count ts))).magic ≠ MAGIC
      then false
      else decide (crc32 (bytesLE (raw.take count)) =
        (parseHeader (overwriteSlot old (writeRecordBytes raw filt count ts))).checksum)) = true
  rw [hmagic, hck, if_neg (fun h => h rfl)]
  simp

/-- `write_capture_dual` under its success preconditions: it targets the
first free slot, replaces exactly that slot with the erased-and-programmed
record image, and returns the slot index. -/
theorem write_capture_dual_success (f : Flash) (raw : List Nat) (filt : Option (List Nat))
    (count ts : Nat) (hcnt : count ≠ 0)
    (hsize : 32 + (count * 2 + (if filt.isSome then count * 2 else 0)) ≤ CAPTURE_SLOT_SIZE)
    (hslot : get_capture_count f < MAX_CAPTURES)
    (hslen : get_capture_count f < f.slots.length) (hraw : count ≤ raw.length) :
    write_capture_dual f (some raw) filt count ts =
      (Flash.mk (f.slots.set (get_capture_count f)
          (overwriteSlot (getSlot f (get_capture_count f))
            (writeRecordBytes raw filt count ts))),
        Int.ofNat (get_capture_count f)) := by
  have hcount : count < 4294967296 := by
    unfold CAPTURE_SLOT_SIZE at hsize
    omega
  show write_capture_dual_checked f raw filt count ts = _
  unfold write_capture_dual_checked
  rw [if_neg hcnt, if_neg (not_lt.mpr hsize), if_neg (not_le.mpr hslot),
    if_pos (verify_writtenSlot f (getSlot f (get_capture_count f)) raw filt count ts
      (get_capture_count f) hslot hslen hraw hcount)]

/-- Truncating each element to 16 bits is the identity on uint16 values. -/
theorem map_mod_65536_eq_self (l : List Nat) (h : ∀ v ∈ l, v < 65536) :
    l.map (· % 65536) = l := by
  rw [List.map_congr_left fun a ha => Nat.mod_eq_of_lt (h a ha)]
  exact List.map_id l

/-- `read_capture_dual` on a freshly written slot succeeds with the parsed
header, the raw view of the written samples, and a filtered view exactly
when filtered data was written. -/
theorem read_capture_dual_writtenSlot (f : Flash) (old raw : List Nat)
    (filt : Option (List Nat)) (count ts s : Nat) (hs10 : s < MAX_CAPTURES)
    (hslen : s < f.slots.length) (hraw : count ≤ raw.length)
    (hflen : ∀ fl, filt = some fl → count ≤ fl.length) (hcount : count < 4294967296) :
    read_capture_dual
        (Flash.mk (f.slots.set s (overwriteSlot old (writeRecordBytes raw filt count ts))))
        (Int.ofNat s) =
      some (parseHeader (overwriteSlot old (writeRecordBytes raw filt count ts)),
        (raw.take count).map (· % 65536),
        filt.map fun fl => (fl.take count).map (· % 65536)) := by
  unfold read_capture_dual
  rw [if_neg (slotIndex_ok s hs10), getSlot_set f s _ hslen]
  have hmagic : (parseHeader (overwriteSlot old (writeRecordBytes raw filt count ts))).magic =
      MAGIC := by
    rw [parse_writtenSlot]
    rfl
  have hcnt : (parseHeader (overwriteSlot old (writeRecordBytes raw filt count ts))).sample_count =
      count := by
    rw [parse_writtenSlot]
    show (recordHeader raw filt count ts).sample_count % 4294967296 = count
    exact Nat.mod_eq_of_lt hcount
  rw [if_neg (by rw [hmagic]; exact fun h => h rfl), hcnt,
    readSamples_writtenSlot old raw filt count ts hraw]
  cases filt with
  | none =>
    have hver : (parseHeader (overwriteSlot old (writeRecordBytes raw none count ts))).version =
        1 := by
      rw [parse_writtenSlot]
      rfl
    rw [if_neg (by rw [hver]; rintro ⟨h2, _⟩; omega)]
    rfl
  | some fl =>
    have hver : (parseHeader
        (overwriteSlot old (writeRecordBytes raw (some fl) count ts))).version = 2 := by
      rw [parse_writtenSlot]
      rfl
    have hhf : (parseHeader
        (overwriteSlot old (writeRecordBytes raw (some fl) count ts))).has_filtered = 1 := by
      rw [parse_writtenSlot]
      rfl
    rw [if_pos ⟨by rw [hver], hhf⟩,
      readSamplesFilt_writtenSlot old raw fl count ts hraw (hflen fl rfl)]
    rfl

/-- A nonnegative result from `write_capture_dual` implies all three
acceptance checks passed: nonzero count, record within slot capacity, and
a free slot. -/
theorem write_success_conditions (f : Flash) (raw : List Nat) (filt : Option (List Nat))
    (count ts : Nat) (h : 0 ≤ (write_capture_dual f (some raw) filt count ts).2) :
    count ≠ 0 ∧
      32 + (count * 2 + (if filt.isSome then count * 2 else 0)) ≤ CAPTURE_SLOT_SIZE ∧
      get_capture_count f < MAX_CAPTURES := by
  revert h
  show 0 ≤ (write_capture_dual_checked f raw filt count ts).2 → _
  unfold write_capture_dual_checked
  by_cases h0 : count = 0
  · rw [if_pos h0]
    intro h
    simp at h
  rw [if_neg h0]
  by_cases h1 : CAPTURE_SLOT_SIZE < 32 + (count * 2 + if filt.isSome then count * 2 else 0)
  · rw [if_pos h1]
    intro h
    simp at h
  rw [if_neg h1]
  by_cases h2 : MAX_CAPTURES ≤ get_capture_count f
  · rw [if_pos h2]
    intro h
    simp at h
  rw [if_neg h2]
  intro _
  exact ⟨h0, not_lt.mp h1, not_le.mp h2⟩

/-- C2: any raw (plus optionally filtered) sample sequence that
`write_capture_dual` accepts and returns a slot for reads back via
`read_capture_dual` on that slot with identical `sample_count`, identical
`timestamp`, and payload views whose sample values are identical to those
written (the filtered view present exactly when filtered data was
written); and `verify_capture` on that slot returns true. -/
theorem flash_write_read_roundtrip (f : Flash) (raw : List Nat) (filt : Option (List Nat))
    (count ts : Nat) (hflash : f.slots.length = MAX_CAPTURES) (hrlen : raw.length = count)
    (hflen : ∀ fl, filt = some fl → fl.length = count) (hrval : ∀ v ∈ raw, v < 65536)
    (hfval : ∀ fl, filt = some fl → ∀ v ∈ fl, v < 65536) (hts : ts < 4294967296)
    (hsucc : 0 ≤ (write_capture_dual f (some raw) filt count ts).2) :
    ∃ hdr,
      read_capture_dual (write_capture_dual f (some raw) filt count ts).1
          (write_capture_dual f (some raw) filt count ts).2 = some (hdr, raw, filt) ∧
        hdr.sample_count = count ∧ hdr.timestamp = ts ∧
        verify_capture (write_capture_dual f (some raw) filt count ts).1
          (write_capture_dual f (some raw) filt count ts).2 = true := by
  obtain ⟨h0, h1, h2⟩ := write_success_conditions f raw filt count ts hsucc
  have hslen : get_capture_count f < f.slots.length := by
    rw [hflash]
    exact h2
  have hraw : count ≤ raw.length := le_of_eq hrlen.symm
  have hcount : count < 4294967296 := by
    unfold CAPTURE_SLOT_SIZE at h1
    omega
  have hw := write_capture_dual_success f raw filt count ts h0 h1 h2 hslen hraw
  have hw1 : (write_capture_dual f (some raw) filt count ts).1 =
      Flash.mk (f.slots.set (get_capture_count f)
        (overwriteSlot (getSlot f (get_capture_count f))
          (writeRecordBytes raw filt count ts))) := by
    rw [hw]
  have hw2 : (write_capture_dual f (some raw) filt count ts).2 =
      Int.ofNat (get_capture_count f) := by
    rw [hw]
  have hr : (raw.take count).map (· % 65536) = raw := by
    rw [← hrlen, List.take_length]
    exact map_mod_65536_eq_self raw hrval
  have hf : (filt.map fun fl => (fl.take count).map (· % 65536)) = filt := by
    cases filt with
    | none => rfl
    | some fl =>
      show some ((fl.take count).map (· % 65536)) = some fl
      rw [← hflen fl rfl, List.take_length, map_mod_65536_eq_self fl (hfval fl rfl)]
  refine ⟨parseHeader (overwriteSlot (getSlot f (get_capture_count f))
    (writeRecordBytes raw filt count ts)), ?_, ?_, ?_, ?_⟩
  · rw [hw1, hw2, read_capture_dual_writtenSlot f _ raw filt count ts _ h2 hslen hraw
      (fun fl hfl => le_of_eq (hflen fl hfl).symm) hcount, hr, hf]
  · rw [parse_writtenSlot]
    show (recordHeader raw filt count ts).sample_count % 4294967296 = count
    exact Nat.mod_eq_of_lt hcount
  · rw [parse_writtenSlot]
    show (recordHeader raw filt count ts).timestamp % 4294967296 = ts
    exact Nat.mod_eq_of_lt hts
  · rw [hw1, hw2]
    exact verify_writtenSlot f _ raw filt count ts _ h2 hslen hraw hcount

/-- Witness for C2: a one-sample raw+filtered capture written to an erased
partition round-trips. -/
theorem flash_write_read_roundtrip_witness :
    ∃ hdr,
      read_capture_dual (write_capture_dual emptyFlash (some [7]) (some [9]) 1 5).1
          (write_capture_dual emptyFlash (some [7]) (some [9]) 1 5).2 =
          some (hdr, [7], some [9]) ∧
        hdr.sample_count = 1 ∧ hdr.timestamp = 5 ∧
        verify_capture (write_capture_dual emptyFlash (some [7]) (some [9]) 1 5).1
          (write_capture_dual emptyFlash (some [7]) (some [9]) 1 5).2 = true :=
  flash_write_read_roundtrip emptyFlash [7] (some [9]) 1 5 (by decide) (by decide)
    (by intro fl h; cases h; decide) (by decide) (by intro fl h; cases h; decide)
    (by decide) (by decide)

/-- When every slot's stored magic matches, `get_capture_count` saturates
at MAX_CAPTURES. -/
theorem get_capture_count_full (f : Flash)
    (h : ∀ i, i < MAX_CAPTURES → readU32 (getSlot f i) 0 = MAGIC) :
    MAX_CAPTURES ≤ get_capture_count f := by
  have hlen : MAX_CAPTURES ≤ f.slots.length := by
    by_contra hl
    have hempty : getSlot f f.slots.length = [] :=
      List.getD_eq_default _ _ le_rfl
    have := h f.slots.length (not_le.mp hl)
    rw [hempty] at this
    exact absurd this (by decide)
  have hself : (f.slots.take MAX_CAPTURES).takeWhile
      (fun s => readU32 s 0 == MAGIC) = f.slots.take MAX_CAPTURES := by
    rw [List.takeWhile_eq_self_iff]
    intro x hx
    obtain ⟨i, hi, hgot⟩ := List.mem_iff_getElem.mp hx
    have hi10 : i < MAX_CAPTURES := by
      have := hi
      rw [List.length_take] at this
      omega
    have hix : x = getSlot f i := by
      rw [← hgot, List.getElem_take]
      unfold getSlot
      rw [List.getD_eq_getElem _ _ (by omega)]
    rw [hix, beq_iff_eq]
    exact h i hi10
  unfold get_capture_count
  rw [hself, List.length_take]
  omega

/-- C4: when all MAX_CAPTURES slots are occupied, or when the serialized
record (32-byte header plus payloads) exceeds the 128 KiB slot capacity,
`write_capture_dual` returns `-1` without mutating any slot: the returned
flash is the input flash, so every previously stored record is
byte-for-byte unchanged. -/
theorem write_full_or_oversized_rejected (f : Flash) (raw filt : Option (List Nat))
    (count ts : Nat)
    (h : (∀ i, i < MAX_CAPTURES → readU32 (getSlot f i) 0 = MAGIC) ∨
      CAPTURE_SLOT_SIZE < 32 + (count * 2 + if filt.isSome then count * 2 else 0)) :
    write_capture_dual f raw filt count ts = (f, -1) := by
  cases raw with
  | none => rfl
  | some rawS =>
    show write_capture_dual_checked f rawS filt count ts = (f, -1)
    unfold write_capture_dual_checked
    by_cases h0 : count = 0
    · rw [if_pos h0]
    rw [if_neg h0]
    by_cases h1 : CAPTURE_SLOT_SIZE < 32 + (count * 2 + if filt.isSome then count * 2 else 0)
    · rw [if_pos h1]
    rcases h with h | h
    · rw [if_neg h1, if_pos (get_capture_count_full f h)]
    · exact absurd h h1

/-- Witness for C4: with all ten slots occupied, a further write is
rejected and the flash value is returned unchanged. -/
theorem write_full_or_oversized_rejected_witness :
    write_capture_dual fullFlash (some [1]) none 1 0 = (fullFlash, -1) :=
  write_full_or_oversized_rejected fullFlash (some [1]) none 1 0 (Or.inl (by decide))

/-- Overwriting one list position leaves reads of other positions alone. -/
theorem readByte_set_ne (s : List Nat) (m i v : Nat) (h : m ≠ i) :
    readByte (s.set m v) i = readByte s i := by
  unfold readByte
  rw [List.getD_eq_getElem?_getD, List.getD_eq_getElem?_getD, List.getElem?_set_ne h]

/-- A `uint32_t` read entirely below an overwritten position is unchanged. -/
theorem readU32_set_of_lt (s : List Nat) (m off v : Nat) (h : off + 3 < m) :
    readU32 (s.set m v) off = readU32 s off := by
  unfold readU32
  rw [readByte_set_ne s m off v (by omega), readByte_set_ne s m (off + 1) v (by omega),
    readByte_set_ne s m (off + 2) v (by omega), readByte_set_ne s m (off + 3) v (by omega)]

/-- Corrupting a payload byte (at offset 32 or later) leaves the parsed
header unchanged. -/
theorem parseHeader_set_high (s : List Nat) (m v : Nat) (h : 32 ≤ m) :
    parseHeader (s.set m v) = parseHeader s := by
  unfold parseHeader
  rw [readU32_set_of_lt s m 0 v (by omega), readU32_set_of_lt s m 4 v (by omega),
    readU32_set_of_lt s m 8 v (by omega), readU32_set_of_lt s m 12 v (by omega),
    readU32_set_of_lt s m 16 v (by omega), readU32_set_of_lt s m 20 v (by omega),
    readU32_set_of_lt s m 24 v (by omega), readU32_set_of_lt s m 28 v (by omega)]

/-- Overwriting a byte inside the read window corrupts exactly that
position of the bytes read back. -/
theorem readBytesList_set_inside (s : List Nat) (off n j v : Nat) (hj : j < n)
    (hidx : off + j < s.length) :
    readBytesList (s.set (off + j) v) off n = (readBytesList s off n).set j v := by
  apply List.ext_getElem
  · simp [readBytesList]
  · intro i h1 h2
    have hi : i < n := by simpa [readBytesList] using h2
    simp only [readBytesList, List.getElem_set, List.getElem_map, List.getElem_range]
    by_cases hij : j = i
    · rw [if_pos hij, ← hij]
      exact getD_set_self s (off + j) v 255 hidx
    · rw [if_neg hij]
      exact readByte_set_ne s (off + j) (off + i) v (by omega)

/-- The erased-and-programmed slot image is at least as long as the record. -/
theorem overwriteSlot_length_ge (old wb : List Nat) :
    wb.length ≤ (overwriteSlot old wb).length := by
  unfold overwriteSlot
  simp

/-- The serialized record is at least as long as header plus raw payload. -/
theorem writeRecordBytes_length_ge (raw : List Nat) (filt : Option (List Nat))
    (count ts : Nat) (hraw : count ≤ raw.length) :
    32 + 2 * count ≤ (writeRecordBytes raw filt count ts).length := by
  unfold writeRecordBytes
  rw [List.length_append, List.length_append, headerBytes_length,
    rawPayload_length raw count hraw]
  omega

/-- `getSlot` after replacing slot `s`, with a `Nat` index. -/
theorem getSlot_set_nat (f : Flash) (s : Nat) (S : List Nat) (hslen : s < f.slots.length) :
    getSlot (Flash.mk (f.slots.set s S)) s = S := by
  unfold getSlot
  exact getD_set_self _ _ _ _ hslen

/-- The raw payload byte `j` of a freshly written slot is the byte `j` of
the serialized raw payload. -/
theorem readByte_writtenSlot_raw (old raw : List Nat) (filt : Option (List Nat))
    (count ts j : Nat) (hraw : count ≤ raw.length) (hj : j < 2 * count) :
    readByte (overwriteSlot old (writeRecordBytes raw filt count ts)) (32 + j) =
      (bytesLE (raw.take count)).getD j 255 := by
  rw [writtenSlot_split old raw filt count ts,
    show (32 + j : Nat) = (headerBytes (recordHeader raw filt count ts)).length + j by
      rw [headerBytes_length],
    readByte_append_add]
  unfold readByte
  rw [List.getD_append _ _ 255 j (by rw [rawPayload_length raw count hraw]; omega)]

/-- `read_capture` on a written slot whose raw payload byte `j` was
overwritten with `v`: the header is untouched, and the returned payload
bytes are the written ones with position `j` replaced by `v`. -/
theorem read_capture_corrupted (f : Flash) (old raw : List Nat) (filt : Option (List Nat))
    (count ts s j v : Nat) (hs10 : s < MAX_CAPTURES) (hslen : s < f.slots.length)
    (hraw : count ≤ raw.length) (hcount : count < 4294967296) (hj : j < 2 * count) :
    read_capture
        (Flash.mk (f.slots.set s
          ((overwriteSlot old (writeRecordBytes raw filt count ts)).set (32 + j) v)))
        (Int.ofNat s) =
      some (parseHeader (overwriteSlot old (writeRecordBytes raw filt count ts)),
        (bytesLE (raw.take count)).set j v) := by
  have hidx : 32 + j < (overwriteSlot old (writeRecordBytes raw filt count ts)).length := by
    have e1 := writeRecordBytes_length_ge raw filt count ts hraw
    have e2 := overwriteSlot_length_ge old (writeRecordBytes raw filt count ts)
    omega
  unfold read_capture
  rw [if_neg (slotIndex_ok s hs10), getSlot_set f s _ hslen]
  simp only []
  rw [parseHeader_set_high _ _ _ (by omega)]
  have hmagic : (parseHeader (overwriteSlot old (writeRecordBytes raw filt count ts))).magic =
      MAGIC := by
    rw [parse_writtenSlot]
    rfl
  have hcnt : (parseHeader (overwriteSlot old (writeRecordBytes raw filt count ts))).sample_count =
      count := by
    rw [parse_writtenSlot]
    show (recordHeader raw filt count ts).sample_count % 4294967296 = count
    exact Nat.mod_eq_of_lt hcount
  rw [if_neg (by rw [hmagic]; exact fun h => h rfl), hcnt,
    readBytesList_set_inside _ 32 (2 * count) j v hj hidx,
    readBytes_writtenSlot old raw filt count ts hraw]

/-- Replacing one byte of a byte list (all entries below 256) with a
different byte changes its CRC-32. -/
theorem crc32_set_ne (B : List Nat) (j v : Nat) (hj : j < B.length)
    (hB : ∀ x ∈ B, x < 256) (hv : v < 256) (hne : v ≠ B.getD j 0) :
    crc32 (B.set j v) ≠ crc32 B := by
  have hsplit : B.set j v = B.take j ++ v :: B.drop (j + 1) := by
    rw [List.set_eq_take_append_cons_drop, if_pos hj]
  have hB2 : B = B.take j ++ B[j] :: B.drop (j + 1) := by
    conv_lhs => rw [← List.take_append_drop j B, List.drop_eq_getElem_cons hj]
  have hgd : B.getD j 0 = B[j] := List.getD_eq_getElem B 0 hj
  rw [hsplit]
  conv_rhs => rw [hB2]
  refine crc32_flip_ne (B.take j) (B.drop (j + 1)) (lt_trans hv (by norm_num))
    (lt_trans (hB _ (List.getElem_mem hj)) (by norm_num)) (by rw [← hgd]; exact hne)
    (fun x hx => lt_trans (hB x (List.take_subset j B hx)) (by norm_num))
    (fun x hx => lt_trans (hB x (List.drop_subset (j + 1) B hx)) (by norm_num))

/-- C3 as amended: for a record `write_capture_dual` has persisted,
flipping any single bit of any byte of the persisted raw payload makes
`verify_capture` on that slot return false (the raw checksum is the only
one it recomputes and compares; see the counterexample for a filtered
payload flip it misses). -/
theorem verify_detects_raw_payload_flip (f : Flash) (raw : List Nat)
    (filt : Option (List Nat)) (count ts j k : Nat)
    (hflash : f.slots.length = MAX_CAPTURES) (hraw : count ≤ raw.length)
    (hj : j < 2 * count) (hk : k < 8)
    (hsucc : 0 ≤ (write_capture_dual f (some raw) filt count ts).2) :
    verify_capture
        (flipBit (write_capture_dual f (some raw) filt count ts).1
          (write_capture_dual f (some raw) filt count ts).2.toNat (32 + j) k)
        (write_capture_dual f (some raw) filt count ts).2 = false := by
  obtain ⟨h0, h1, h2⟩ := write_success_conditions f raw filt count ts hsucc
  have hslen : get_capture_count f < f.slots.length := by
    rw [hflash]
    exact h2
  have hcount : count < 4294967296 := by
    unfold CAPTURE_SLOT_SIZE at h1
    omega
  have hw := write_capture_dual_success f raw filt count ts h0 h1 h2 hslen hraw
  have hw1 : (write_capture_dual f (some raw) filt count ts).1 =
      Flash.mk (f.slots.set (get_capture_count f)
        (overwriteSlot (getSlot f (get_capture_count f))
          (writeRecordBytes raw filt count ts))) := by
    rw [hw]
  have hw2 : (write_capture_dual f (some raw) filt count ts).2 =
      Int.ofNat (get_capture_count f) := by
    rw [hw]
  rw [hw1, hw2, show (Int.ofNat (get_capture_count f)).toNat = get_capture_count f from rfl]
  have hget : getSlot (Flash.mk (f.slots.set (get_capture_count f)
      (overwriteSlot (getSlot f (get_capture_count f))
        (writeRecordBytes raw filt count ts)))) (get_capture_count f) =
      overwriteSlot (getSlot f (get_capture_count f)) (writeRecordBytes raw filt count ts) :=
    getSlot_set_nat f (get_capture_count f) _ hslen
  unfold flipBit
  rw [hget]
  have hslen2 : get_capture_count f <
      (Flash.mk (f.slots.set (get_capture_count f)
        (overwriteSlot (getSlot f (get_capture_count f))
          (writeRecordBytes raw filt count ts)))).slots.length := by
    show get_capture_count f < (f.slots.set (get_capture_count f) _).length
    rw [List.length_set]
    exact hslen
  unfold verify_capture
  rw [read_capture_corrupted (Flash.mk (f.slots.set (get_capture_count f)
      (overwriteSlot (getSlot f (get_capture_count f)) (writeRecordBytes raw filt count ts))))
      (getSlot f (get_capture_count f)) raw filt count ts (get_capture_count f) j
      (readByte (overwriteSlot (getSlot f (get_capture_count f))
        (writeRecordBytes raw filt count ts)) (32 + j) ^^^ 2 ^ k)
      h2 hslen2 hraw hcount hj]
  have hmagic : (parseHeader (overwriteSlot (getSlot f (get_capture_count f))
      (writeRecordBytes raw filt count ts))).magic = MAGIC := by
    rw [parse_writtenSlot]
    rfl
  have hck : (parseHeader (overwriteSlot (getSlot f (get_capture_count f))
      (writeRecordBytes raw filt count ts))).checksum =
      crc32 (bytesLE (raw.take count)) := by
    rw [parse_writtenSlot]
    show (recordHeader raw filt count ts).checksum % 4294967296 =
      crc32 (bytesLE (raw.take count))
    exact Nat.mod_eq_of_lt (recordChecksum_lt raw count)
  have hb : readByte (overwriteSlot (getSlot f (get_capture_count f))
      (writeRecordBytes raw filt count ts)) (32 + j) =
      (bytesLE (raw.take count)).getD j 255 :=
    readByte_writtenSlot_raw (getSlot f (get_capture_count f)) raw filt count ts j hraw hj
  have hjlen : j < (bytesLE (raw.take count)).length := by
    rw [rawPayload_length raw count hraw]
    exact hj
  have hbval : (bytesLE (raw.take count)).getD j 255 = (bytesLE (raw.take count))[j] :=
    List.getD_eq_getElem _ 255 hjlen
  have hblt : (bytesLE (raw.take count)).getD j 255 < 256 := by
    rw [hbval]
    exact bytesLE_lt _ _ (List.getElem_mem hjlen)
  have hklt : (2 : Nat) ^ k < 256 := by
    calc (2 : Nat) ^ k < 2 ^ 8 := Nat.pow_lt_pow_right one_lt_two hk
    _ = 256 := by norm_num
  have hflip_ne : (bytesLE (raw.take count)).getD j 255 ^^^ 2 ^ k ≠
      (bytesLE (raw.take count)).getD j 0 := by
    rw [List.getD_eq_getElem _ 0 hjlen, ← hbval]
    intro heq
    have h2k : (2 : Nat) ^ k = 0 := by
      have e1 : (bytesLE (raw.take count)).getD j 255 ^^^
          ((bytesLE (raw.take count)).getD j 255 ^^^ 2 ^ k) = 2 ^ k := by
        rw [← Nat.xor_assoc, Nat.xor_self, Nat.zero_xor]
      rw [heq, Nat.xor_self] at e1
      omega
    exact absurd h2k (Nat.pos_iff_ne_zero.mp (Nat.pos_pow_of_pos k (by norm_num)))
  have hcrc_ne : crc32 ((bytesLE (raw.take count)).set j
      ((bytesLE (raw.take count)).getD j 255 ^^^ 2 ^ k)) ≠
      crc32 (bytesLE (raw.take count)) :=
    crc32_set_ne (bytesLE (raw.take count)) j _ hjlen (bytesLE_lt _)
      (Nat.xor_lt_two_pow (n := 8) (by simpa using hblt) (by simpa using hklt)) hflip_ne
  rw [hb]
  show (if (parseHeader (overwriteSlot (getSlot f (get_capture_count f))
      (writeRecordBytes raw filt count ts))).magic ≠ MAGIC then false
    else decide (crc32 ((bytesLE (raw.take count)).set j
        ((bytesLE (raw.take count)).getD j 255 ^^^ 2 ^ k)) =
      (parseHeader (overwriteSlot (getSlot f (get_capture_count f))
        (writeRecordBytes raw filt count ts))).checksum)) = false
  rw [hmagic, hck, if_neg (fun h => h rfl)]
  exact decide_eq_false hcrc_ne

/-- C3 counterexample: flipping one bit (bit 0 of byte 34, the first byte
of the persisted filtered payload) of a committed raw+filtered record does
not make `verify_capture` fail — it recomputes only the raw checksum and
never rechecks `checksum_filt`, so the claim that every stored checksum is
compared and any payload bit flip is detected fails at this input. -/
theorem verify_misses_filtered_flip_cex :
    (write_capture_dual emptyFlash (some [1]) (some [2]) 1 0).2 = 0 ∧
      (parseHeader (getSlot cexWrittenFlash 0)).has_filtered = 1 ∧
      readByte (getSlot cexFlippedFlash 0) 34 =
        readByte (getSlot cexWrittenFlash 0) 34 ^^^ 1 ∧
      cexFlippedFlash ≠ cexWrittenFlash ∧
      verify_capture cexFlippedFlash 0 = true := by
  decide

/-- Witness for C3 (amended) at a concrete one-sample record: flipping bit
0 of the first persisted raw payload byte fails verification. -/
theorem verify_detects_raw_payload_flip_witness :
    verify_capture
        (flipBit (write_capture_dual emptyFlash (some [7]) none 1 3).1
          (write_capture_dual emptyFlash (some [7]) none 1 3).2.toNat (32 + 0) 0)
        (write_capture_dual emptyFlash (some [7]) none 1 3).2 = false :=
  verify_detects_raw_payload_flip emptyFlash [7] none 1 3 0 0 (by decide) (by decide)
    (by decide) (by decide) (by decide)

/-- `writeAt` keeps the buffer length when the copy stays in bounds. -/
theorem writeAt_length (b : List Nat) (i : Nat) (xs : List Nat)
    (h : i + xs.length ≤ b.length) : (writeAt b i xs).length = b.length := by
  unfold writeAt
  rw [List.length_append, List.length_append, List.length_take, List.length_drop]
  omega

/-- `writeAt` leaves every position at or past the end of the copied
window unchanged. -/
theorem writeAt_getD_high (b : List Nat) (i : Nat) (xs : List Nat) (m : Nat)
    (hb : i + xs.length ≤ b.length) (hm : i + xs.length ≤ m) :
    (writeAt b i xs).getD m 0 = b.getD m 0 := by
  unfold writeAt
  have h1 : (b.take i ++ xs).length = i + xs.length := by
    rw [List.length_append, List.length_take]
    omega
  rw [List.getD_eq_getElem?_getD, List.getD_eq_getElem?_getD,
    List.getElem?_append_right (by rw [h1]; omega), h1, List.getElem?_drop,
    show i + xs.length + (m - (i + xs.length)) = m by omega]

/-- The freshly constructed collector satisfies the invariant. -/
theorem DCInv_init : DCInv DataCollector.init := by
  intro h
  exact absurd h (by decide)

/-- `start_collection` preserves the invariant. -/
theorem DCInv_start (c : DataCollector) (d : Nat) (ef ok : Bool) (h : DCInv c) :
    DCInv (c.start_collection d ef ok).1 := by
  unfold DataCollector.start_collection
  by_cases hcol : c.is_collecting = true
  · rw [if_pos hcol]
    exact h
  rw [if_neg hcol]
  unfold DataCollector.allocate_buffers
  cases ok with
  | false =>
    simp only [if_pos rfl]
    intro hC
    simp at hC
  | true =>
    cases ef with
    | true =>
      simp only [Bool.true_eq_false, if_false, if_true, reduceIte]
      intro hC
      refine ⟨Nat.zero_le _, ⟨_, rfl, by simp⟩, fun _ => ⟨_, rfl, by simp⟩, fun hfe => ?_⟩
      simp at hfe
    | false =>
      simp only [Bool.true_eq_false, Bool.false_eq_true, if_false, if_true, reduceIte]
      intro hC
      exact ⟨Nat.zero_le _, ⟨_, rfl, by simp⟩, fun hfe => by simp at hfe, fun _ => rfl⟩

/-- `cancel_collection` preserves the invariant. -/
theorem DCInv_cancel (c : DataCollector) (h : DCInv c) : DCInv c.cancel_collection := by
  unfold DataCollector.cancel_collection
  by_cases hcol : c.is_collecting = false
  · rw [if_pos hcol]
    exact h
  rw [if_neg hcol]
  intro hC
  simp at hC

/-- `finalize_collection` never returns a collector in the COLLECTING
state: outside COLLECTING it is a no-op, from COLLECTING it ends in
COMPLETE or ERROR. -/
theorem finalize_state_ne (c : DataCollector) (f : Flash) (ts : Nat) :
    ((c.finalize_collection f ts).1).state ≠ DCState.COLLECTING := by
  unfold DataCollector.finalize_collection
  by_cases hst : c.state ≠ DCState.COLLECTING
  · rw [if_pos hst]
    exact hst
  rw [if_neg hst]
  by_cases hw : 0 ≤ (if ({ c with state := DCState.WRITING_FLASH } :
        DataCollector).filtering_enabled &&
        ({ c with state := DCState.WRITING_FLASH } : DataCollector).filtered_buffer.isSome then
      write_capture_dual f ({ c with state := DCState.WRITING_FLASH } :
        DataCollector).raw_buffer
        ({ c with state := DCState.WRITING_FLASH } : DataCollector).filtered_buffer
        ({ c with state := DCState.WRITING_FLASH } : DataCollector).samples_collected ts
    else
      write_capture_dual f ({ c with state := DCState.WRITING_FLASH } :
        DataCollector).raw_buffer none
        ({ c with state := DCState.WRITING_FLASH } : DataCollector).samples_collected ts).2
  · rw [if_pos hw]
    simp
  · rw [if_neg hw]
    simp

/-- `finalize_collection` preserves the invariant. -/
theorem DCInv_finalize (c : DataCollector) (f : Flash) (ts : Nat) (h : DCInv c) :
    DCInv (c.finalize_collection f ts).1 := by
  intro hC
  exact absurd hC (finalize_state_ne c f ts)

/-- `process_buffer` preserves the invariant. -/
theorem DCInv_process (c : DataCollector) (f : Flash) (raw filt : Option (List Nat))
    (count ts : Nat) (h : DCInv c) : DCInv (c.process_buffer f raw filt count ts).1 := by
  unfold DataCollector.process_buffer
  by_cases hst : c.state ≠ DCState.COLLECTING
  · rw [if_pos hst]
    exact h
  rw [if_neg hst]
  have hC : c.state = DCState.COLLECTING := not_not.mp hst
  obtain ⟨hcol, ⟨B, hB, hBl⟩, hfeT, hfeF⟩ := h hC
  cases raw with
  | none => exact h
  | some rawS =>
    show DCInv (c.process_buffer_checked f rawS filt count ts).1
    unfold DataCollector.process_buffer_checked
    by_cases h0 : count = 0
    · rw [if_pos h0]
      exact h
    rw [if_neg h0]
    simp only [hB, Option.map_some]
    have hcopy : min count (c.target_samples - c.samples_collected) ≤
        c.target_samples - c.samples_collected := min_le_right _ _
    have htklen : ∀ l : List Nat,
        (l.take (min count (c.target_samples - c.samples_collected))).length ≤
          min count (c.target_samples - c.samples_collected) := by
      intro l
      rw [List.length_take]
      omega
    by_cases hfs : (c.filtering_enabled && filt.isSome) = true
    · have hfs' : c.filtering_enabled = true ∧ filt.isSome = true := by simpa using hfs
      have hfs1 : c.filtering_enabled = true := hfs'.1
      obtain ⟨FB, hFB, hFBl⟩ := hfeT hfs1
      rw [if_pos hfs]
      simp only [hFB, Option.map_some]
      split
      · split
        · intro hC2
          simp at hC2
        · intro hC2
          exact absurd hC2 (finalize_state_ne _ f ts)
      · next hlt =>
        intro _
        simp only [not_le] at hlt
        refine ⟨by simp; omega, ⟨_, rfl, ?_⟩, fun _ => ⟨_, rfl, ?_⟩, fun hfe => ?_⟩
        · simp only []
          rw [writeAt_length _ _ _ (by rw [hBl]; have := htklen rawS; omega), hBl]
        · simp only []
          rw [writeAt_length _ _ _ (by rw [hFBl]; have := htklen (filt.getD []); omega), hFBl]
        · have hfe2 : c.filtering_enabled = false := hfe
          rw [hfs1] at hfe2
          exact absurd hfe2 (by simp)
    · rw [if_neg hfs]
      split
      · split
        · intro hC2
          simp at hC2
        · intro hC2
          exact absurd hC2 (finalize_state_ne _ f ts)
      · next hlt =>
        intro _
        simp only [not_le] at hlt
        refine ⟨by simp; omega, ⟨_, rfl, ?_⟩, fun hfe => ?_, fun hfe => ?_⟩
        · simp only []
          rw [writeAt_length _ _ _ (by rw [hBl]; have := htklen rawS; omega), hBl]
        · have hfe2 : c.filtering_enabled = true := hfe
          obtain ⟨FB, hFB, hFBl⟩ := hfeT hfe2
          exact ⟨FB, by simpa using hFB, hFBl⟩
        · have hfe2 : c.filtering_enabled = false := hfe
          simpa using hfeF hfe2

/-- Every reachable collector satisfies the collecting invariant. -/
theorem DCReachable_inv (c : DataCollector) (h : DCReachable c) : DCInv c := by
  induction h with
  | init => exact DCInv_init
  | start c d ef ok _ ih => exact DCInv_start c d ef ok ih
  | process c f raw filt count ts _ ih => exact DCInv_process c f raw filt count ts ih
  | finalize c f ts _ ih => exact DCInv_finalize c f ts ih
  | cancel c _ ih => exact DCInv_cancel c ih

/-- `finalize_collection` never touches the counters and either keeps or
frees (never rewrites) each buffer. -/
theorem finalize_fields (c : DataCollector) (f : Flash) (ts : Nat) :
    (c.finalize_collection f ts).1.samples_collected = c.samples_collected ∧
      (c.finalize_collection f ts).1.target_samples = c.target_samples ∧
      ((c.finalize_collection f ts).1.raw_buffer = c.raw_buffer ∨
        (c.finalize_collection f ts).1.raw_buffer = none) ∧
      ((c.finalize_collection f ts).1.filtered_buffer = c.filtered_buffer ∨
        (c.finalize_collection f ts).1.filtered_buffer = none) := by
  unfold DataCollector.finalize_collection
  by_cases hst : c.state ≠ DCState.COLLECTING
  · rw [if_pos hst]
    exact ⟨rfl, rfl, Or.inl rfl, Or.inl rfl⟩
  rw [if_neg hst]
  simp only []
  split <;> split
  · exact ⟨rfl, rfl, Or.inr rfl, Or.inr rfl⟩
  · exact ⟨rfl, rfl, Or.inl rfl, Or.inl rfl⟩
  · exact ⟨rfl, rfl, Or.inr rfl, Or.inr rfl⟩
  · exact ⟨rfl, rfl, Or.inl rfl, Or.inl rfl⟩

/-- Feed-bound conclusions for a call that left the collector unchanged. -/
theorem feed_bounds_of_eq (c : DataCollector) (B : List Nat)
    (hcol : c.samples_collected ≤ c.target_samples) (hB : c.raw_buffer = some B)
    (hBl : B.length = c.target_samples)
    (hfeT : c.filtering_enabled = true →
      ∃ b, c.filtered_buffer = some b ∧ b.length = c.target_samples)
    (hfeF : c.filtering_enabled = false → c.filtered_buffer = none)
    (r : DataCollector × Flash × Bool) (hr : r.1 = c) :
    c.samples_collected ≤ c.target_samples ∧
      r.1.samples_collected - c.samples_collected ≤
        c.target_samples - c.samples_collected ∧
      r.1.samples_collected ≤ c.target_samples ∧
      (∀ b, r.1.raw_buffer = some b → b.length = c.target_samples ∧
        ∀ i, c.samples_collected + (r.1.samples_collected - c.samples_collected) ≤ i →
          b.getD i 0 = (c.raw_buffer.getD []).getD i 0) ∧
      (∀ b, r.1.filtered_buffer = some b → b.length = c.target_samples ∧
        ∀ i, c.samples_collected + (r.1.samples_collected - c.samples_collected) ≤ i →
          b.getD i 0 = (c.filtered_buffer.getD []).getD i 0) := by
  rw [hr]
  refine ⟨hcol, by omega, hcol, ?_, ?_⟩
  · intro b hb
    rw [hB] at hb
    cases hb
    exact ⟨hBl, fun i _ => by rw [hB]; rfl⟩
  · intro b hb
    cases hflag : c.filtering_enabled with
    | true =>
      obtain ⟨FB, hFB, hFBl⟩ := hfeT hflag
      rw [hFB] at hb
      cases hb
      exact ⟨hFBl, fun i _ => by rw [hFB]; rfl⟩
    | false =>
      rw [hfeF hflag] at hb
      cases hb

/-- Feed bounds for the copy phase `process_buffer_checked` under the
collecting invariant. -/
theorem feed_bounds_checked (c : DataCollector) (f : Flash) (rawS : List Nat)
    (filt : Option (List Nat)) (count ts : Nat)
    (hcol : c.samples_collected ≤ c.target_samples)
    (hB : ∃ B, c.raw_buffer = some B ∧ B.length = c.target_samples)
    (hfeT : c.filtering_enabled = true →
      ∃ b, c.filtered_buffer = some b ∧ b.length = c.target_samples)
    (hfeF : c.filtering_enabled = false → c.filtered_buffer = none) :
    c.samples_collected ≤ c.target_samples ∧
      (c.process_buffer_checked f rawS filt count ts).1.samples_collected -
          c.samples_collected ≤ c.target_samples - c.samples_collected ∧
      (c.process_buffer_checked f rawS filt count ts).1.samples_collected ≤
        c.target_samples ∧
      (∀ b, (c.process_buffer_checked f rawS filt count ts).1.raw_buffer = some b →
        b.length = c.target_samples ∧
        ∀ i, c.samples_collected +
            ((c.process_buffer_checked f rawS filt count ts).1.samples_collected -
              c.samples_collected) ≤ i →
          b.getD i 0 = (c.raw_buffer.getD []).getD i 0) ∧
      (∀ b, (c.process_buffer_checked f rawS filt count ts).1.filtered_buffer = some b →
        b.length = c.target_samples ∧
        ∀ i, c.samples_collected +
            ((c.process_buffer_checked f rawS filt count ts).1.samples_collected -
              c.samples_collected) ≤ i →
          b.getD i 0 = (c.filtered_buffer.getD []).getD i 0) := by
  obtain ⟨B, hB, hBl⟩ := hB
  unfold DataCollector.process_buffer_checked
  by_cases h0 : count = 0
  · rw [if_pos h0]
    exact feed_bounds_of_eq c B hcol hB hBl hfeT hfeF (c, f, false) rfl
  rw [if_neg h0]
  simp only [hB, Option.map_some]
  have hcopy : min count (c.target_samples - c.samples_collected) ≤
      c.target_samples - c.samples_collected := min_le_right _ _
  have htklen : ∀ l : List Nat,
      (l.take (min count (c.target_samples - c.samples_collected))).length ≤
        min count (c.target_samples - c.samples_collected) := by
    intro l
    rw [List.length_take]
    omega
  have hraw_loc : ∀ i, c.samples_collected +
      min count (c.target_samples - c.samples_collected) ≤ i →
      (writeAt B c.samples_collected
        (rawS.take (min count (c.target_samples - c.samples_collected)))).getD i 0 =
        B.getD i 0 := by
    intro i hi
    exact writeAt_getD_high B c.samples_collected _ i
      (by rw [hBl]; have := htklen rawS; omega) (by have := htklen rawS; omega)
  have hraw_len : (writeAt B c.samples_collected
      (rawS.take (min count (c.target_samples - c.samples_collected)))).length =
      c.target_samples := by
    rw [writeAt_length _ _ _ (by rw [hBl]; have := htklen rawS; omega), hBl]
  by_cases hfs : (c.filtering_enabled && filt.isSome) = true
  · have hfs' : c.filtering_enabled = true ∧ filt.isSome = true := by simpa using hfs
    obtain ⟨FB, hFB, hFBl⟩ := hfeT hfs'.1
    rw [if_pos hfs]
    simp only [hFB, Option.map_some]
    have hfilt_loc : ∀ i, c.samples_collected +
        min count (c.target_samples - c.samples_collected) ≤ i →
        (writeAt FB c.samples_collected
          ((filt.getD []).take (min count (c.target_samples - c.samples_collected)))).getD
            i 0 = FB.getD i 0 := by
      intro i hi
      exact writeAt_getD_high FB c.samples_collected _ i
        (by rw [hFBl]; have := htklen (filt.getD []); omega)
        (by have := htklen (filt.getD []); omega)
    have hfilt_len : (writeAt FB c.samples_collected
        ((filt.getD []).take (min count (c.target_samples - c.samples_collected)))).length =
        c.target_samples := by
      rw [writeAt_length _ _ _ (by rw [hFBl]; have := htklen (filt.getD []); omega), hFBl]
    try simp only []
    split
    · refine ⟨hcol, ?_, ?_, ?_, ?_⟩
      · obtain ⟨hsc, -, -, -⟩ := finalize_fields _ f ts
        split
        · simp only []
          rw [hsc]
          simp only []
          omega
        · rw [hsc]
          simp only []
          omega
      · obtain ⟨hsc, -, -, -⟩ := finalize_fields _ f ts
        split
        · simp only []
          rw [hsc]
          simp only []
          omega
        · rw [hsc]
          simp only []
          omega
      · obtain ⟨hsc, -, hbuf, -⟩ := finalize_fields _ f ts
        split
        · intro b hb
          simp only [] at hb
          rcases hbuf with hcase | hcase <;> rw [hcase] at hb
          · simp only [] at hb
            cases hb
            rw [hsc]
            simp only []
            exact ⟨hraw_len, fun i hi => hraw_loc i (by omega)⟩
          · cases hb
        · intro b hb
          rcases hbuf with hcase | hcase <;> rw [hcase] at hb
          · simp only [] at hb
            cases hb
            rw [hsc]
            simp only []
            exact ⟨hraw_len, fun i hi => hraw_loc i (by omega)⟩
          · cases hb
      · obtain ⟨hsc, -, -, hbuf⟩ := finalize_fields _ f ts
        split
        · intro b hb
          simp only [] at hb
          rcases hbuf with hcase | hcase <;> rw [hcase] at hb
          · simp only [] at hb
            cases hb
            rw [hsc]
            simp only []
            exact ⟨hfilt_len, fun i hi => hfilt_loc i (by omega)⟩
          · cases hb
        · intro b hb
          rcases hbuf with hcase | hcase <;> rw [hcase] at hb
          · simp only [] at hb
            cases hb
            rw [hsc]
            simp only []
            exact ⟨hfilt_len, fun i hi => hfilt_loc i (by omega)⟩
          · cases hb
    · refine ⟨hcol, by simp only []; omega, by simp only []; omega, ?_, ?_⟩
      · intro b hb
        simp only [] at hb
        cases hb
        exact ⟨hraw_len, fun i hi => hraw_loc i (by simp only [] at hi; omega)⟩
      · intro b hb
        simp only [] at hb
        cases hb
        exact ⟨hfilt_len, fun i hi => hfilt_loc i (by simp only [] at hi; omega)⟩
  · rw [if_neg hfs]
    try simp only []
    split
    · refine ⟨hcol, ?_, ?_, ?_, ?_⟩
      · obtain ⟨hsc, -, -, -⟩ := finalize_fields _ f ts
        split
        · simp only []
          rw [hsc]
          simp only []
          omega
        · rw [hsc]
          simp only []
          omega
      · obtain ⟨hsc, -, -, -⟩ := finalize_fields _ f ts
        split
        · simp only []
          rw [hsc]
          simp only []
          omega
        · rw [hsc]
          simp only []
          omega
      · obtain ⟨hsc, -, hbuf, -⟩ := finalize_fields _ f ts
        split
        · intro b hb
          simp only [] at hb
          rcases hbuf with hcase | hcase <;> rw [hcase] at hb
          · simp only [] at hb
            cases hb
            rw [hsc]
            simp only []
            exact ⟨hraw_len, fun i hi => hraw_loc i (by omega)⟩
          · cases hb
        · intro b hb
          rcases hbuf with hcase | hcase <;> rw [hcase] at hb
          · simp only [] at hb
            cases hb
            rw [hsc]
            simp only []
            exact ⟨hraw_len, fun i hi => hraw_loc i (by omega)⟩
          · cases hb
      · obtain ⟨hsc, -, -, hbuf⟩ := finalize_fields _ f ts
        split
        · intro b hb
          simp only [] at hb
          rcases hbuf with hcase | hcase <;> rw [hcase] at hb
          · simp only [] at hb
            rcases Bool.dichotomy c.filtering_enabled with hflag | hflag
            · rw [hfeF hflag] at hb
              cases hb
            · obtain ⟨FB, hFB, hFBl⟩ := hfeT hflag
              rw [hFB] at hb
              cases hb
              simp only []
              rw [hsc]
              exact ⟨hFBl, fun i _ => by rw [hFB]; rfl⟩
          · cases hb
        · intro b hb
          rcases hbuf with hcase | hcase <;> rw [hcase] at hb
          · simp only [] at hb
            rcases Bool.dichotomy c.filtering_enabled with hflag | hflag
            · rw [hfeF hflag] at hb
              cases hb
            · obtain ⟨FB, hFB, hFBl⟩ := hfeT hflag
              rw [hFB] at hb
              cases hb
              simp only []
              rw [hsc]
              exact ⟨hFBl, fun i _ => by rw [hFB]; rfl⟩
          · cases hb
    · refine ⟨hcol, by simp only []; omega, by simp only []; omega, ?_, ?_⟩
      · intro b hb
        simp only [] at hb
        cases hb
        exact ⟨hraw_len, fun i hi => hraw_loc i (by simp only [] at hi; omega)⟩
      · intro b hb
        simp only [] at hb
        rcases Bool.dichotomy c.filtering_enabled with hflag | hflag
        · rw [hfeF hflag] at hb
          cases hb
        · obtain ⟨FB, hFB, hFBl⟩ := hfeT hflag
          rw [hFB] at hb
          cases hb
          exact ⟨hFBl, fun i _ => by rw [hFB]; rfl⟩

/-- C1: on every reachable collector in the COLLECTING state,
`samples_collected` never exceeds `target_samples`; a `process_buffer`
call copies at most `target_samples - samples_collected` samples from the
batch, keeps `samples_collected` at or below `target_samples`, and writes
no sample at or past index `samples_collected + copied` — in particular
never at or past index `target_samples` — in either the raw or the
filtered buffer, whose lengths stay exactly `target_samples` while they
remain allocated.  Closed under every call sequence because `DCReachable`
is closed under all four operations. -/
theorem dataCollector_feed_bounds (c : DataCollector) (f : Flash)
    (raw filt : Option (List Nat)) (count ts : Nat) (hR : DCReachable c)
    (hC : c.state = DCState.COLLECTING) :
    c.samples_collected ≤ c.target_samples ∧
      (c.process_buffer f raw filt count ts).1.samples_collected - c.samples_collected ≤
        c.target_samples - c.samples_collected ∧
      (c.process_buffer f raw filt count ts).1.samples_collected ≤ c.target_samples ∧
      (∀ b, (c.process_buffer f raw filt count ts).1.raw_buffer = some b →
        b.length = c.target_samples ∧
        ∀ i, c.samples_collected +
            ((c.process_buffer f raw filt count ts).1.samples_collected -
              c.samples_collected) ≤ i →
          b.getD i 0 = (c.raw_buffer.getD []).getD i 0) ∧
      (∀ b, (c.process_buffer f raw filt count ts).1.filtered_buffer = some b →
        b.length = c.target_samples ∧
        ∀ i, c.samples_collected +
            ((c.process_buffer f raw filt count ts).1.samples_collected -
              c.samples_collected) ≤ i →
          b.getD i 0 = (c.filtered_buffer.getD []).getD i 0) := by
  obtain ⟨hcol, ⟨B, hB, hBl⟩, hfeT, hfeF⟩ := DCReachable_inv c hR hC
  unfold DataCollector.process_buffer
  rw [if_neg (not_not.mpr hC)]
  cases raw with
  | none => exact feed_bounds_of_eq c B hcol hB hBl hfeT hfeF (c, f, false) rfl
  | some rawS => exact feed_bounds_checked c f rawS filt count ts hcol ⟨B, hB, hBl⟩ hfeT hfeF

/-- Witness for C1: a fresh one-millisecond session (target 5 samples)
fed a two-sample batch stays within its target. -/
theorem dataCollector_feed_bounds_witness :
    ((DataCollector.init.start_collection 1 false true).1.process_buffer emptyFlash
        (some [1, 2]) none 2 0).1.samples_collected ≤
      (DataCollector.init.start_collection 1 false true).1.target_samples :=
  (dataCollector_feed_bounds (DataCollector.init.start_collection 1 false true).1 emptyFlash
      (some [1, 2]) none 2 0
      (DCReachable.start DataCollector.init 1 false true DCReachable.init)
      (by decide)).2.2.1

/-- Every state of the C5 scenario is a reachable collector state. -/
theorem scenario_reachable (n : Nat) : DCReachable (scenarioAfter n).1 := by
  induction n with
  | zero => exact DCReachable.start DataCollector.init 1000 false true DCReachable.init
  | succ k ih =>
    rw [show scenarioAfter (k + 1) = scenarioStep (scenarioAfter k) from
      Function.iterate_succ_apply' scenarioStep k _]
    exact DCReachable.process (scenarioAfter k).1 (scenarioAfter k).2
      (some (List.replicate 512 0)) none 512 0 ih

/-- After nine 512-sample batches the scenario collector is still
collecting, holding 4608 of its 5000-sample target over an untouched
flash. -/
theorem scenario_after9 :
    ∃ B9 : List Nat,
      scenarioAfter 9 =
        ({ state := DCState.COLLECTING
           raw_buffer := some B9
           filtered_buffer := none
           samples_collected := 4608
           target_samples := 5000
           buffer_size := 5000
           last_capture_slot := 0
           filtering_enabled := false }, emptyFlash) ∧
        B9.length = 5000 := by
  obtain ⟨-, ⟨B, hB, hBl⟩, -, -⟩ :=
    DCReachable_inv (scenarioAfter 9).1 (scenario_reachable 9) (by decide)
  refine ⟨_, rfl, ?_⟩
  have h2 := Option.some.inj hB
  rw [← h2] at hBl
  rw [hBl]
  decide

/-- One `process_buffer` call on a filtering-disabled collecting session
that reaches its target: it copies `min count (tg - sc)` samples and
auto-finalizes, persisting via `write_capture_dual` and ending COMPLETE on
success or ERROR on failure. -/
theorem process_buffer_finalizing (B : List Nat) (f : Flash) (rawS : List Nat)
    (count ts bs lcs sc tg : Nat) (wres : Flash × Int) (h0 : count ≠ 0)
    (hge : tg ≤ sc + min count (tg - sc))
    (hw : write_capture_dual f (some (writeAt B sc (rawS.take (min count (tg - sc)))))
      none (sc + min count (tg - sc)) ts = wres) :
    ({ state := DCState.COLLECTING
       raw_buffer := some B
       filtered_buffer := none
       samples_collected := sc
       target_samples := tg
       buffer_size := bs
       last_capture_slot := lcs
       filtering_enabled := false } :
      DataCollector).process_buffer f (some rawS) none count ts =
      (if 0 ≤ wres.2 then
        ({ state := DCState.COMPLETE
           raw_buffer := none
           filtered_buffer := none
           samples_collected := sc + min count (tg - sc)
           target_samples := tg
           buffer_size := 0
           last_capture_slot := wres.2.toNat
           filtering_enabled := false }, wres.1, true)
      else
        ({ state := DCState.ERROR
           raw_buffer := some (writeAt B sc (rawS.take (min count (tg - sc))))
           filtered_buffer := none
           samples_collected := sc + min count (tg - sc)
           target_samples := tg
           buffer_size := bs
           last_capture_slot := lcs
           filtering_enabled := false }, wres.1, true)) := by
  show ({ state := DCState.COLLECTING, raw_buffer := some B, filtered_buffer := none,
          samples_collected := sc, target_samples := tg, buffer_size := bs,
          last_capture_slot := lcs, filtering_enabled := false } :
        DataCollector).process_buffer_checked f rawS none count ts = _
  unfold DataCollector.process_buffer_checked
  rw [if_neg h0]
  simp only [Option.map_some']
  rw [if_neg (by decide : ¬((false && (none : Option (List Nat)).isSome) = true))]
  simp only []
  rw [if_pos hge]
  unfold DataCollector.finalize_collection
  simp only []
  rw [if_neg (by decide : ¬(DCState.COLLECTING ≠ DCState.COLLECTING))]
  try simp only [Option.map_some']
  rw [if_neg (by decide : ¬((false && (none : Option (List Nat)).isSome) = true)), hw]
  rcases le_or_lt 0 wres.2 with hpos | hneg
  · rw [if_pos hpos, if_pos hpos]
    simp only []
    rw [if_neg (not_lt.mpr hpos)]
  · rw [if_neg (not_le.mpr hneg), if_neg (not_le.mpr hneg)]
    simp only []
    rw [if_pos hneg]

/-- The tenth 512-sample batch of the C5 scenario copies only 392 samples,
reaches the 5000-sample target, auto-finalizes into slot 0, and leaves the
collector COMPLETE. -/
theorem scenario_step10 :
    ∃ B9 : List Nat,
      5000 ≤ B9.length ∧
      scenarioAfter 10 =
        ({ state := DCState.COMPLETE
           raw_buffer := none
           filtered_buffer := none
           samples_collected := 5000
           target_samples := 5000
           buffer_size := 0
           last_capture_slot := 0
           filtering_enabled := false },
          Flash.mk (emptyFlash.slots.set 0
            (overwriteSlot (getSlot emptyFlash 0)
              (writeRecordBytes (writeAt B9 4608 ((List.replicate 512 0).take 392))
                none 5000 0)))) := by
  obtain ⟨B9, h9eq, hB9len⟩ := scenario_after9
  refine ⟨B9, le_of_eq hB9len.symm, ?_⟩
  have hWlen : (writeAt B9 4608 ((List.replicate 512 0).take 392)).length = 5000 := by
    rw [writeAt_length _ _ _ (by rw [hB9len]; simp), hB9len]
  have hgcc : get_capture_count emptyFlash = 0 := by decide
  have hwrite := write_capture_dual_success emptyFlash
      (writeAt B9 4608 ((List.replicate 512 0).take 392)) none 5000 0
      (by norm_num)
      (by norm_num [CAPTURE_SLOT_SIZE])
      (by rw [hgcc]; norm_num [MAX_CAPTURES])
      (by rw [hgcc]; norm_num [emptyFlash])
      (le_of_eq hWlen.symm)
  rw [hgcc] at hwrite
  rw [show scenarioAfter 10 = scenarioStep (scenarioAfter 9) from
    Function.iterate_succ_apply' scenarioStep 9 _, h9eq]
  simp only [scenarioStep]
  rw [process_buffer_finalizing B9 emptyFlash (List.replicate 512 0) 512 0 5000 0 4608 5000 _
    (by norm_num) (by norm_num) hwrite]
  rw [if_pos (show
    (0 : Int) ≤ (Flash.mk (emptyFlash.slots.set 0
        (overwriteSlot (getSlot emptyFlash 0)
          (writeRecordBytes (writeAt B9 4608 ((List.replicate 512 0).take 392))
            none 5000 0))), Int.ofNat 0).2 from le_refl 0)]
  rfl

/-- C5: with the 5000 Hz sample rate, `start_collection(1000 ms)` sets the
target to 5000 samples and succeeds; nine 512-sample batches collect 4608
samples; the tenth batch copies exactly 392 more, reaches 5000, and
auto-finalizes into a persisted record whose header `sample_count` is
5000. -/
theorem collection_scenario_5000 :
    SAMPLE_RATE_HZ = 5000 ∧
    (DataCollector.init.start_collection 1000 false true).2 = true ∧
    (DataCollector.init.start_collection 1000 false true).1.target_samples = 5000 ∧
    (scenarioAfter 9).1.samples_collected = 4608 ∧
    (scenarioAfter 10).1.samples_collected = 5000 ∧
    (scenarioAfter 10).1.samples_collected - (scenarioAfter 9).1.samples_collected = 392 ∧
    (scenarioAfter 10).1.state = DCState.COMPLETE ∧
    (read_capture_dual (scenarioAfter 10).2 (Int.ofNat 0)).map
      (fun t => t.1.sample_count) = some 5000 := by
  obtain ⟨B9, hB9len, h10⟩ := scenario_step10
  obtain ⟨B9a, h9eq, -⟩ := scenario_after9
  have hWlen5 : 5000 ≤ (writeAt B9 4608 ((List.replicate 512 0).take 392)).length := by
    rw [writeAt_length _ _ _ (by simp; omega)]
    exact hB9len
  have h9c : (scenarioAfter 9).1.samples_collected = 4608 := by rw [h9eq]
  have h10c : (scenarioAfter 10).1.samples_collected = 5000 := by rw [h10]
  refine ⟨rfl, rfl, rfl, h9c, h10c, ?_, ?_, ?_⟩
  · rw [h9c, h10c]
  · rw [h10]
  · rw [h10]
    simp only []
    rw [read_capture_dual_writtenSlot emptyFlash (getSlot emptyFlash 0)
      (writeAt B9 4608 ((List.replicate 512 0).take 392)) none 5000 0 0
      (by decide) (by decide) hWlen5 (fun fl h => by cases h) (by norm_num)]
    simp only [Option.map_some']
    rw [parse_writtenSlot]
    rfl
